import Mathlib

/-!
Miosix: suspend manager and file layer

A shallow embedding of `miosix/kernel/suspend_manager.h` and
`miosix/filesystem/file.cpp`, followed by the properties proved about it.

The target is a 32-bit processor: `int`, `unsigned int`, `size_t`, `ssize_t`
and pointers are 32 bits wide, `short` 16 bits, `long long` 64 bits.
Machine integers are natural numbers or integers, reduced modulo `2 ^ 32`
where the C++ code can overflow.  Bytes (`char`) are natural numbers; the
only values the code inspects are `'\n' = 10` and `'\r' = 13`.
-/

namespace Miosix

/-! ## Machine integers -/

/-- Number of values of a 32-bit word (`unsigned int`, `size_t`, a pointer). -/
def WORD : Nat := 4294967296

/-- Largest value of `ssize_t`. -/
def SSIZE_MAX : Nat := 2147483647

/-- Conversion of an unsigned 32-bit value to `ssize_t`, as done by
`return len;` in a function returning `ssize_t`. -/
def toSsize (x : Nat) : Int :=
  if x % WORD ≤ SSIZE_MAX then ((x % WORD : Nat) : Int)
  else ((x % WORD : Nat) : Int) - (WORD : Int)

/-- Sum of two `unsigned int` values. -/
def addU32 (x y : Nat) : Nat := (x % WORD + y % WORD) % WORD

/-! ## `suspend_manager.h`: the backup area base -/

/-- Embedding of `SuspendManager::getProcessesBackupAreaBase`.  The three
arguments are `backupSramBase` (cast to `unsigned int`) and the values
returned by `getAllocatorSramAreaSize()` and
`getBackupAllocatorSramAreaSize()`, all declared in
`interfaces/suspend_support.h`.  The method reads no member of the object. -/
def getProcessesBackupAreaBase
    (backupSramBase allocatorSramAreaSize backupAllocatorSramAreaSize : Nat) : Nat :=
  addU32 (addU32 backupSramBase allocatorSramAreaSize) backupAllocatorSramAreaSize

/-! ## `suspend_manager.h`: layout of the serialized records -/

/-- Scalar types used by the serialized records. -/
inductive CType where
  | char
  | shortInt
  | int
  | longLong
  | pointer
  deriving DecidableEq, Repr

/-- Storage size of a scalar type on the target. -/
def CType.size : CType → Nat
  | .char => 1
  | .shortInt => 2
  | .int => 4
  | .longLong => 8
  | .pointer => 4

/-- Natural alignment of a scalar type on the target. -/
def CType.align : CType → Nat
  | .char => 1
  | .shortInt => 2
  | .int => 4
  | .longLong => 8
  | .pointer => 4

/-- Names of the members of `struct IntPointStatus`, in declaration order. -/
inductive IntPointField where
  | intPointID
  | file_id
  | absSyscallTime
  | backupQueue
  | queueSize
  | wakeNow
  | sizeofSample
  | sampNum
  | registers
  | targetSampleMem
  deriving DecidableEq, Repr

/-- Names of the members of `struct ProcessStatus`, in declaration order. -/
inductive ProcessField where
  | pid
  | ppid
  | status
  | numThreads
  | exitCode
  | processImageBase
  | processImageSize
  | programBase
  | programSize
  | fileDescriptors
  | interruptionPoints
  deriving DecidableEq, Repr

/-- One member of a struct: its name, the size and alignment of one element
and the number of elements (1 for a member that is not an array). -/
structure Member (ν : Type) where
  name : ν
  elemSize : Nat
  elemAlign : Nat
  count : Nat

/-- Number of bytes a member occupies. -/
def Member.size {ν : Type} (m : Member ν) : Nat := m.count * m.elemSize

/-- A member of scalar type. -/
def Member.scalar {ν : Type} (name : ν) (t : CType) : Member ν :=
  ⟨name, t.size, t.align, 1⟩

/-- A member that is an array of `n` scalars. -/
def Member.array {ν : Type} (name : ν) (t : CType) (n : Nat) : Member ν :=
  ⟨name, t.size, t.align, n⟩

/-- Round `off` up to a multiple of `a`. -/
def alignUp (off a : Nat) : Nat := (off + a - 1) / a * a

/-- Alignment a member asks for: 1 inside a packed struct. -/
def Member.required {ν : Type} (packed : Bool) (m : Member ν) : Nat :=
  if packed then 1 else m.elemAlign

/-- Offsets the compiler gives to the members of a struct laid out from
offset `off`: every member starts at the first multiple of its required
alignment at or after the end of the member before it. -/
def memberOffsets {ν : Type} (packed : Bool) : Nat → List (Member ν) → List Nat
  | _, [] => []
  | off, m :: ms =>
    alignUp off (m.required packed) ::
      memberOffsets packed (alignUp off (m.required packed) + m.size) ms

/-- Offset of the first byte after the last member. -/
def membersEnd {ν : Type} (packed : Bool) : Nat → List (Member ν) → Nat
  | off, [] => off
  | off, m :: ms => membersEnd packed (alignUp off (m.required packed) + m.size) ms

/-- Alignment of the struct itself. -/
def structAlign {ν : Type} (packed : Bool) (ms : List (Member ν)) : Nat :=
  (ms.map (Member.required packed)).foldl max 1

/-- Value of `sizeof` for a struct with the given members. -/
def sizeofStruct {ν : Type} (packed : Bool) (ms : List (Member ν)) : Nat :=
  alignUp (membersEnd packed 0 ms) (structAlign packed ms)

/-- Members of `struct IntPointStatus`; `CTXSAVE_SIZE` comes from
`interfaces/portability.h`. -/
def IntPointStatus.members (CTXSAVE_SIZE : Nat) : List (Member IntPointField) :=
  [ .scalar .intPointID .int,
    .scalar .file_id .int,
    .scalar .absSyscallTime .longLong,
    .scalar .backupQueue .pointer,
    .scalar .queueSize .int,
    .scalar .wakeNow .char,
    .scalar .sizeofSample .char,
    .scalar .sampNum .int,
    .array .registers .int CTXSAVE_SIZE,
    .scalar .targetSampleMem .pointer ]

/-- The struct `IntPointStatus` is declared `__attribute__((packed))`. -/
def IntPointStatus.packed : Bool := true

/-- Value of `sizeof(IntPointStatus)`. -/
def IntPointStatus.sizeof (CTXSAVE_SIZE : Nat) : Nat :=
  sizeofStruct IntPointStatus.packed (IntPointStatus.members CTXSAVE_SIZE)

/-- Members of `struct ProcessStatus`; `MAX_OPEN_FILES` and
`MAX_THREADS_PER_PROCESS` come from the kernel configuration. -/
def ProcessStatus.members (CTXSAVE_SIZE MAX_OPEN_FILES MAX_THREADS_PER_PROCESS : Nat) :
    List (Member ProcessField) :=
  [ .scalar .pid .int,
    .scalar .ppid .int,
    .scalar .status .shortInt,
    .scalar .numThreads .shortInt,
    .scalar .exitCode .int,
    .scalar .processImageBase .pointer,
    .scalar .processImageSize .int,
    .scalar .programBase .pointer,
    .scalar .programSize .int,
    .array .fileDescriptors .int MAX_OPEN_FILES,
    ⟨.interruptionPoints, IntPointStatus.sizeof CTXSAVE_SIZE,
      structAlign IntPointStatus.packed (IntPointStatus.members CTXSAVE_SIZE),
      1 + MAX_THREADS_PER_PROCESS⟩ ]

/-- The struct `ProcessStatus` is declared `__attribute__((packed))`. -/
def ProcessStatus.packed : Bool := true

/-- Value of `sizeof(ProcessStatus)`. -/
def ProcessStatus.sizeof (CTXSAVE_SIZE MAX_OPEN_FILES MAX_THREADS_PER_PROCESS : Nat) : Nat :=
  sizeofStruct ProcessStatus.packed
    (ProcessStatus.members CTXSAVE_SIZE MAX_OPEN_FILES MAX_THREADS_PER_PROCESS)

/-- Sum of the sizes of the first `k` members. -/
def sizeBefore {ν : Type} (ms : List (Member ν)) (k : Nat) : Nat :=
  ((ms.take k).map Member.size).sum

/-! ## `file.cpp`: the underlying device -/

/-- Outcome of one read of the underlying device: `byte b` is a read that
returns 1 and stores the byte `b`; `fail e` is a read that returns
`-e <= 0` (end of file when `e = 0`) and stores nothing. -/
inductive DevEvent where
  | byte (b : Nat)
  | fail (e : Nat)
  deriving DecidableEq, Repr

/-- The file behind a `TerminalDevice` (`intrusive_ref_ptr<FileBase> device`),
an abstract interface in the source.  It is given by what its successive
calls answer: `readScript k` is the outcome of the read number `k`,
`writeScript k` the value returned by the write number `k`.  The state is the
number of reads done and the list of the byte sequences passed to `write`. -/
structure Device where
  readScript : Nat → DevEvent
  writeScript : Nat → Int
  reads : Nat
  written : List (List Nat)

/-- Call of `device->write(data, len)`: the bytes are recorded, the scripted
value is returned. -/
def Device.write (d : Device) (bytes : List Nat) : Int × Device :=
  (d.writeScript d.written.length, { d with written := d.written ++ [bytes] })

/-- Call of `device->read(buffer, len)` on a character device: at most one
byte is delivered per call, stored at offset `buffer` of the caller's
memory. -/
def Device.read (d : Device) (mem : Int → Nat) (buffer : Int) (len : Nat) :
    Int × Device × (Int → Nat) :=
  if len = 0 then (0, d, mem)
  else
    match d.readScript d.reads with
    | .byte b => (1, { d with reads := d.reads + 1 }, Function.update mem buffer b)
    | .fail e => (-(e : Int), { d with reads := d.reads + 1 }, mem)

/-- The bytes `data[a], ..., data[b-1]` of a buffer. -/
def chunk (data : Nat → Nat) (a b : Nat) : List Nat :=
  (List.range' a (b - a)).map data

/-- The first `n` bytes of a buffer addressed by signed offsets. -/
def bufferPrefix (mem : Int → Nat) (n : Nat) : List Nat :=
  (List.range n).map (fun (k : Nat) => mem (k : Int))

/-! ## `file.cpp`: `NullFile` and `ZeroFile` -/

/-- Embedding of `NullFile::write`. -/
def NullFile.write (_data : Nat → Nat) (len : Nat) : Int :=
  toSsize len

/-- Embedding of `NullFile::read`; `EBADF` comes from `<errno.h>`.  The
second component is the caller's buffer after the call. -/
def NullFile.read (EBADF : Int) (data : Int → Nat) (_len : Nat) : Int × (Int → Nat) :=
  (-EBADF, data)

/-- The libc function `memset(data, c, n)`: stores the byte `c` at the
offsets `0, ..., n-1`. -/
def memset (data : Int → Nat) (c : Nat) : Nat → Int → Nat
  | 0 => data
  | n + 1 => Function.update (memset data c n) (n : Int) (c % 256)

/-- Embedding of `ZeroFile::write`. -/
def ZeroFile.write (EBADF : Int) (_data : Nat → Nat) (_len : Nat) : Int :=
  -EBADF

/-- Embedding of `ZeroFile::read`. -/
def ZeroFile.read (data : Int → Nat) (len : Nat) : Int × (Int → Nat) :=
  (toSsize len, memset data 0 len)

/-! ## `file.cpp`: `TerminalDevice` -/

/-- Members of `class TerminalDevice`. -/
structure TerminalDevice where
  device : Device
  echo : Bool
  binary : Bool
  skipNewline : Bool

/-- The loop of `TerminalDevice::write` and the code after it.  The first
argument is the number of iterations left, `len - i`; `buffer` is
`dataStart + i` throughout, `chunkstart` is an offset from `dataStart`. -/
def writeLoop (data : Nat → Nat) (len : Nat) : Nat → Nat → Nat → Device → Int × Device
  | 0, i, chunkstart, dev =>
    if chunkstart ≠ i then
      let w := dev.write (chunk data chunkstart i)
      if w.1 ≤ 0 then (if chunkstart = 0 then w.1 else (chunkstart : Int), w.2)
      else (toSsize len, w.2)
    else (toSsize len, dev)
  | n + 1, i, chunkstart, dev =>
    if data i = 10 then
      if 0 < i - chunkstart then
        let w := dev.write (chunk data chunkstart i)
        if w.1 ≤ 0 then (if chunkstart = 0 then w.1 else (chunkstart : Int), w.2)
        else
          let w2 := w.2.write [13, 10]
          if w2.1 ≤ 0 then (if chunkstart = 0 then w2.1 else (chunkstart : Int), w2.2)
          else writeLoop data len n (i + 1) (i + 1) w2.2
      else
        let w2 := dev.write [13, 10]
        if w2.1 ≤ 0 then (if chunkstart = 0 then w2.1 else (chunkstart : Int), w2.2)
        else writeLoop data len n (i + 1) (i + 1) w2.2
    else writeLoop data len n (i + 1) chunkstart dev

/-- Embedding of `TerminalDevice::write(data, len)`. -/
def TerminalDevice.write (td : TerminalDevice) (data : Nat → Nat) (len : Nat) :
    Int × TerminalDevice :=
  if td.binary then
    let w := td.device.write (chunk data 0 len)
    (w.1, { td with device := w.2 })
  else
    let w := writeLoop data len len 0 0 td.device
    (w.1, { td with device := w.2 })

/-- The statement `i--` on a `size_t`. -/
def decSize (i : Nat) : Nat := (i + (WORD - 1)) % WORD

/-- The statement `i++` on a `size_t`. -/
def incSize (i : Nat) : Nat := (i + 1) % WORD

/-- Write done when `echo` is set; its result is ignored. -/
def echoWrite (echo : Bool) (dev : Device) (bytes : List Nat) : Device :=
  if echo then (dev.write bytes).2 else dev

/-- Result of `TerminalDevice::read`: the value returned, the object and the
caller's buffer after the call. -/
structure ReadResult where
  ret : Int
  td : TerminalDevice
  mem : Int → Nat

/-- The text-mode loop of `TerminalDevice::read`.  `i` is the `size_t`
counter, `buffer` the offset of the pointer `buffer` from `dataStart`.  The
first argument bounds the number of iterations; `none` means the bound was
reached before the loop ended. -/
def readLoop (len : Nat) : Nat → TerminalDevice → (Int → Nat) → Nat → Int → Option ReadResult
  | fuel, td, mem, i, buffer =>
    if i < len then
      match fuel with
      | 0 => none
      | fuel + 1 =>
        let r := td.device.read mem buffer 1
        if r.1 ≤ 0 then
          some ⟨if buffer = 0 then r.1 else buffer, { td with device := r.2.1 }, r.2.2⟩
        else if r.2.2 buffer = 13 then
          some ⟨toSsize (i + 1),
            { td with device := echoWrite td.echo r.2.1 [13, 10], skipNewline := true },
            Function.update r.2.2 buffer 10⟩
        else if r.2.2 buffer = 10 then
          if td.skipNewline then
            readLoop len fuel { td with device := r.2.1, skipNewline := false } r.2.2
              (incSize (decSize i)) (buffer - 1 + 1)
          else
            some ⟨toSsize (i + 1),
              { td with device := echoWrite td.echo r.2.1 [13, 10] }, r.2.2⟩
        else
          readLoop len fuel
            { td with device := echoWrite td.echo r.2.1 [r.2.2 buffer], skipNewline := false }
            r.2.2 (incSize i) (buffer + 1)
    else some ⟨toSsize len, td, mem⟩

/-- Embedding of `TerminalDevice::read(data, len)`.  The text-mode loop is
given `len + 1` iterations. -/
def TerminalDevice.read (td : TerminalDevice) (data : Int → Nat) (len : Nat) :
    Option ReadResult :=
  if td.binary then
    let r := td.device.read data 0 len
    let dev := if td.echo ∧ 0 < r.1 then (r.2.1.write (bufferPrefix r.2.2 r.1.toNat)).2 else r.2.1
    some ⟨r.1, { td with device := dev }, r.2.2⟩
  else readLoop len (len + 1) td data 0 0

/-- The bytes a call of `read` hands to its caller: the first `ret` bytes of
the buffer when `ret` is positive, nothing otherwise. -/
def ReadResult.data (r : ReadResult) : List Nat :=
  bufferPrefix r.mem r.ret.toNat

/-- A sequence of `read` calls on the same terminal, each with its own
buffer (initial content and length).  Returns the data handed back by each
call and the terminal after the last one. -/
def readCalls : TerminalDevice → List ((Int → Nat) × Nat) → Option (List (List Nat) × TerminalDevice)
  | td, [] => some ([], td)
  | td, c :: cs =>
    match td.read c.1 c.2 with
    | none => none
    | some r =>
      match readCalls r.td cs with
      | none => none
      | some out => some (r.data :: out.1, out.2)

/-- The payload of the device reads number `a, ..., b-1`. -/
def consumedBytes (readScript : Nat → DevEvent) (a b : Nat) : List Nat :=
  (List.range' a (b - a)).filterMap
    (fun k => match readScript k with
      | .byte c => some c
      | .fail _ => none)

/-- The translation done on output, in the words of the source comment:
every `'\n'` becomes `"\r\n"`. -/
def lfToCrlf (bytes : List Nat) : List Nat :=
  bytes.flatMap (fun b => if b = 10 then [13, 10] else [b])

/-- The translation done on input: every `"\r\n"` pair becomes one `'\n'`,
every other `'\r'` becomes `'\n'`. -/
def crlfToLf : List Nat → List Nat
  | [] => []
  | [b] => [if b = 13 then 10 else b]
  | b :: c :: rest =>
    if b = 13 then
      if c = 10 then 10 :: crlfToLf rest else 10 :: crlfToLf (c :: rest)
    else b :: crlfToLf (c :: rest)

/-! ## `suspend_manager.h`: the records as values -/

/-- Modelled from the spec: the lifecycle tags of section 3 held by the
`short int status` member of `ProcessStatus`; the source gives no numeric
codes for them. -/
inductive Lifecycle where
  | running
  | suspended
  | serialized
  | terminated
  deriving DecidableEq, Repr

/-- The struct `IntPointStatus` as a value.  `wakeNow` is a `char` used as a
flag (set to one if the thread has to wake up now); pointers are
addresses. -/
structure IntPointStatus where
  intPointID : Int
  file_id : Int
  absSyscallTime : Int
  backupQueue : Nat
  queueSize : Int
  wakeNow : Bool
  sizeofSample : Nat
  sampNum : Int
  registers : List Nat
  targetSampleMem : Nat
  deriving DecidableEq, Repr

/-- The struct `ProcessStatus` as a value. -/
structure ProcessStatus where
  pid : Int
  ppid : Int
  status : Lifecycle
  numThreads : Int
  exitCode : Int
  processImageBase : Nat
  processImageSize : Int
  programBase : Nat
  programSize : Int
  fileDescriptors : List Int
  interruptionPoints : List IntPointStatus
  deriving DecidableEq, Repr

/-! ## The suspend coordinator

`suspend_manager.h` declares `resume`, `hibernateDaemon` and the members
they use; their bodies are in `suspend_manager.cpp`.  The definitions of this
section follow sections 3 to 7 of the specification. -/

/-- Modelled from the spec: one slot of the Backup State Area (4.4): the
`ProcessStatus` fields and the copies of the two memory regions. -/
structure BackupSlot where
  record : ProcessStatus
  image : List Nat
  program : List Nat
  deriving DecidableEq, Repr

/-- Modelled from the spec: state of the Hibernate Task, waiting on
`hibernWaiting` or past the hand-off to the power-down path (4.4). -/
inductive HibernTask where
  | waiting
  | poweredDown
  deriving DecidableEq, Repr

/-- Modelled from the spec: the state the coordinator works on.  `slots` is
the array of the Backup State Area (non-volatile), of `slotCapacity`
records, with `regionCapacity` bytes for the copies of memory regions;
`memory` is the volatile main memory; `processes` is the table of live
processes; `suspendedProcesses` lists the pids of the suspended ones. -/
structure SuspendManager where
  slots : List BackupSlot
  slotCapacity : Nat
  regionCapacity : Nat
  memory : Nat → Nat
  processes : List ProcessStatus
  suspendedProcesses : List Int
  hibernTask : HibernTask

/-- The bytes of main memory at `base, ..., base + size - 1`. -/
def readRegion (memory : Nat → Nat) (base size : Nat) : List Nat :=
  (List.range size).map (fun k => memory (base + k))

/-- Main memory after the bytes `bytes` are stored from `base` on. -/
def writeRegion (memory : Nat → Nat) (base : Nat) (bytes : List Nat) : Nat → Nat :=
  fun a => if base ≤ a ∧ a < base + bytes.length then bytes.getD (a - base) 0 else memory a

/-- Modelled from the spec: a slot is dirty when its status tag is
`Serialized`; no other metadata tells valid from stale slots (6). -/
def BackupSlot.dirty (s : BackupSlot) : Bool :=
  decide (s.record.status = Lifecycle.serialized)

/-- Modelled from the spec: `scanDirty()` (4.2), the slots that are
`Serialized` and not yet consumed. -/
def scanDirty (st : SuspendManager) : List BackupSlot :=
  st.slots.filter BackupSlot.dirty

/-- Bytes of the Backup State Area taken by the region copies. -/
def regionBytesUsed (slots : List BackupSlot) : Nat :=
  (slots.map (fun s => s.image.length + s.program.length)).sum

/-- Modelled from the spec: the image and program sizes of a process fit
the Backup State Area (8, round trip): a record slot is free and the room
left takes both regions. -/
def fitsBackupArea (st : SuspendManager) (p : ProcessStatus) : Bool :=
  decide (st.slots.length < st.slotCapacity) &&
  decide (regionBytesUsed st.slots + p.processImageSize.toNat + p.programSize.toNat
    ≤ st.regionCapacity)

/-- Give the status `tag` to the live processes of pid `pid`. -/
def setStatus (pid : Int) (tag : Lifecycle) (ps : List ProcessStatus) : List ProcessStatus :=
  ps.map (fun q => if q.pid = pid then { q with status := tag } else q)

/-- Modelled from the spec: the content of the slot a process is serialized
into (4.4): its `ProcessStatus` fields, tagged `Serialized`, and the bytes of
its two memory regions. -/
def serializedSlot (memory : Nat → Nat) (p : ProcessStatus) : BackupSlot :=
  { record := { p with status := Lifecycle.serialized },
    image := readRegion memory p.processImageBase p.processImageSize.toNat,
    program := readRegion memory p.programBase p.programSize.toNat }

/-- Modelled from the spec: serialization of one suspended process (4.4):
acquire the next slot, copy the `ProcessStatus` fields and both memory
regions into it, mark the slot `Serialized` and mark the process
`Serialized` in live memory.  `none` is the CapacityError of 4.2 and 7. -/
def serializeProcess (st : SuspendManager) (p : ProcessStatus) : Option SuspendManager :=
  if fitsBackupArea st p then
    some { st with
      slots := st.slots ++ [serializedSlot st.memory p],
      processes := setStatus p.pid Lifecycle.serialized st.processes }
  else none

/-- Modelled from the spec: serialization of every suspended process in
turn; the flag is false when a CapacityError stopped the pass, the records
written before it stay (7). -/
def serializeAll : List ProcessStatus → SuspendManager → SuspendManager × Bool
  | [], st => (st, true)
  | p :: ps, st =>
    match serializeProcess st p with
    | none => (st, false)
    | some st1 => serializeAll ps st1

/-- Modelled from the spec: `hibernationBarrierSatisfied()` (4.3), true iff
every live (not `Terminated`) process is in `Suspended` status. -/
def hibernationBarrierSatisfied (st : SuspendManager) : Bool :=
  st.processes.all
    (fun p => decide (p.status = Lifecycle.terminated) || decide (p.status = Lifecycle.suspended))

/-- Modelled from the spec: the current suspended-process set, liveness
re-checked for every member of `suspendedProcesses` (5). -/
def suspendedSet (st : SuspendManager) : List ProcessStatus :=
  st.processes.filter
    (fun p => decide (p.status = Lifecycle.suspended) && decide (p.pid ∈ st.suspendedProcesses))

/-- Modelled from the spec: one run of the Hibernate Task (4.4), under
`suspMutex`.  While the barrier does not hold the task keeps waiting; when it
holds the policy is consulted with the suspended set; if it declines the
task returns to waiting; if it approves every suspended process is
serialized and the task hands off to the power-down path. -/
def hibernateDaemon (policy : List ProcessStatus → Bool) (st : SuspendManager) :
    SuspendManager :=
  match st.hibernTask with
  | HibernTask.poweredDown => st
  | HibernTask.waiting =>
    if hibernationBarrierSatisfied st then
      if policy (suspendedSet st) then
        let r := serializeAll (suspendedSet st) st
        if r.2 then { r.1 with hibernTask := HibernTask.poweredDown } else r.1
      else st
    else st

/-- Modelled from the spec: `requestSuspend(process)` (4.3): the process
becomes `Suspended` and joins the suspended set; asking twice is a no-op the
second time. -/
def requestSuspend (pid : Int) (st : SuspendManager) : SuspendManager :=
  if pid ∈ st.suspendedProcesses then st
  else if st.processes.any
      (fun p => decide (p.pid = pid) && decide (p.status = Lifecycle.running)) then
    { st with
      processes := st.processes.map
        (fun q => if q.pid = pid ∧ q.status = Lifecycle.running then
          { q with status := Lifecycle.suspended } else q),
      suspendedProcesses := pid :: st.suspendedProcesses }
  else st

/-- Modelled from the spec: what can happen to the coordinator between two
runs of the Hibernate Task (3, 5): a process is created, asks to be
suspended, terminates (from any state), becomes runnable again, or the
Hibernate Task runs. -/
inductive Event where
  | spawn (p : ProcessStatus)
  | requestSuspend (pid : Int)
  | terminate (pid : Int) (exitCode : Int)
  | wake (pid : Int)
  | hibernate
  deriving DecidableEq, Repr

/-- Modelled from the spec: effect of one event.  Nothing runs once main
memory is powered down. -/
def step (policy : List ProcessStatus → Bool) (st : SuspendManager) (e : Event) :
    SuspendManager :=
  match st.hibernTask with
  | HibernTask.poweredDown => st
  | HibernTask.waiting =>
    match e with
    | Event.spawn p =>
      { st with processes := st.processes ++ [{ p with status := Lifecycle.running }] }
    | Event.requestSuspend pid => requestSuspend pid st
    | Event.terminate pid code =>
      { st with
        processes := st.processes.map
          (fun q => if q.pid = pid then
            { q with status := Lifecycle.terminated, exitCode := code } else q),
        suspendedProcesses := st.suspendedProcesses.filter (fun x => decide (x ≠ pid)) }
    | Event.wake pid =>
      { st with
        processes := st.processes.map
          (fun q => if q.pid = pid ∧ q.status = Lifecycle.suspended then
            { q with status := Lifecycle.running } else q),
        suspendedProcesses := st.suspendedProcesses.filter (fun x => decide (x ≠ pid)) }
    | Event.hibernate => hibernateDaemon policy st

/-- The coordinator at kernel start: no process, an empty Backup State Area,
the Hibernate Task waiting. -/
def SuspendManager.init (slotCapacity regionCapacity : Nat) (memory : Nat → Nat) :
    SuspendManager :=
  { slots := [], slotCapacity := slotCapacity, regionCapacity := regionCapacity,
    memory := memory, processes := [], suspendedProcesses := [],
    hibernTask := HibernTask.waiting }

/-- The state reached from `st` by a sequence of events. -/
def run (policy : List ProcessStatus → Bool) (st : SuspendManager) (es : List Event) :
    SuspendManager :=
  es.foldl (step policy) st

/-- Modelled from the spec: a power cycle: the Backup State Area survives,
main memory comes back with any content `junk`, no process is live. -/
def powerCycle (junk : Nat → Nat) (st : SuspendManager) : SuspendManager :=
  { st with memory := junk, processes := [], suspendedProcesses := [],
            hibernTask := HibernTask.waiting }

/-- Modelled from the spec: reinstating one interruption point on resume
(4.3): the deadline is recomputed against the current clock (`reclock`, not
specified further) and `wakeNow` is forced true when the stored deadline has
already elapsed; a `wakeNow` already set stays set (3). -/
def reinstate (reclock : Int → Int → Int) (now : Int) (ip : IntPointStatus) :
    IntPointStatus :=
  { ip with
    absSyscallTime := reclock now ip.absSyscallTime,
    wakeNow := ip.wakeNow || decide (ip.absSyscallTime ≤ now) }

/-- Modelled from the spec: the sanity check of a scanned record (7,
IntegrityError): the thread count is within the fixed maximum. -/
def recordValid (MAX_THREADS_PER_PROCESS : Nat) (p : ProcessStatus) : Bool :=
  decide (0 ≤ p.numThreads) && decide (p.numThreads ≤ (MAX_THREADS_PER_PROCESS : Int))

/-- Modelled from the spec: the record reinstated from a slot (3, 4.3): its
interruption points reinstated, its status `Running` when one of its threads
wakes now and `Suspended` otherwise. -/
def restoredRecord (reclock : Int → Int → Int) (now : Int) (p : ProcessStatus) :
    ProcessStatus :=
  { p with
    status :=
      if (p.interruptionPoints.map (reinstate reclock now)).any (fun ip => ip.wakeNow) then
        Lifecycle.running
      else Lifecycle.suspended,
    interruptionPoints := p.interruptionPoints.map (reinstate reclock now) }

/-- Modelled from the spec: the scan of `resume()` over the slots (4.3, 7).
A slot that is not dirty is left alone; a dirty record that fails the sanity
check is skipped; any other dirty record is reinstated: both regions are
copied back to main memory, the record joins the live processes and the
slot is consumed (its tag is no longer `Serialized`).  The number is the
count of processes restored. -/
def resumeScan (MAX_THREADS_PER_PROCESS : Nat) (reclock : Int → Int → Int) (now : Int) :
    List BackupSlot → (Nat → Nat) → List ProcessStatus →
      List BackupSlot × (Nat → Nat) × List ProcessStatus × Nat
  | [], memory, procs => ([], memory, procs, 0)
  | s :: rest, memory, procs =>
    if s.dirty && recordValid MAX_THREADS_PER_PROCESS s.record then
      let p := restoredRecord reclock now s.record
      let memory1 := writeRegion (writeRegion memory s.record.processImageBase s.image)
        s.record.programBase s.program
      let r := resumeScan MAX_THREADS_PER_PROCESS reclock now rest memory1 (procs ++ [p])
      ({ s with record := { s.record with status := p.status } } :: r.1, r.2.1, r.2.2.1,
        r.2.2.2 + 1)
    else
      let r := resumeScan MAX_THREADS_PER_PROCESS reclock now rest memory procs
      (s :: r.1, r.2.1, r.2.2.1, r.2.2.2)

/-- Modelled from the spec: `SuspendManager::resume()` (4.3): `-1` when the
scan finds no dirty record, otherwise every dirty record is reinstated; the
value returned on success is left open by the source comment and is taken
to be the count of processes restored (9). -/
def resume (MAX_THREADS_PER_PROCESS : Nat) (reclock : Int → Int → Int) (now : Int)
    (st : SuspendManager) : Int × SuspendManager :=
  if (scanDirty st).isEmpty then (-1, st)
  else
    let r := resumeScan MAX_THREADS_PER_PROCESS reclock now st.slots st.memory st.processes
    ((r.2.2.2 : Int), { st with slots := r.1, memory := r.2.1, processes := r.2.2.1 })

/-- Successive calls of `resume()`, one per clock value; returns the values
returned and the final state. -/
def resumeCalls (MAX_THREADS_PER_PROCESS : Nat) (reclock : Int → Int → Int) :
    List Int → SuspendManager → List Int × SuspendManager
  | [], st => ([], st)
  | now :: rest, st =>
    let r := resume MAX_THREADS_PER_PROCESS reclock now st
    let rs := resumeCalls MAX_THREADS_PER_PROCESS reclock rest r.2
    (r.1 :: rs.1, rs.2)

/-- The device after one more read. -/
def Device.afterRead (d : Device) : Device := { d with reads := d.reads + 1 }

/-- The input translation as the loop of `read` does it, one byte at a time:
`skip` tells whether the byte before was a carriage return. -/
def normSkip : Bool → List Nat → List Nat
  | _, [] => []
  | skip, b :: rest =>
    if b = 13 then 10 :: normSkip true rest
    else if b = 10 then (if skip then normSkip false rest else 10 :: normSkip false rest)
    else b :: normSkip false rest

/-- Value of `skipNewline` after the bytes were received. -/
def skipAfter : Bool → List Nat → Bool
  | skip, [] => skip
  | _, b :: rest => skipAfter (decide (b = 13)) rest

/-- Embedding of the constructor `TerminalDevice::TerminalDevice(device)`. -/
def TerminalDevice.new (device : Device) : TerminalDevice :=
  { device := device, echo := false, binary := false, skipNewline := false }

/-- A device at its start: `input` is what its reads deliver in turn, end of
file after that; every write returns `w`. -/
def Device.ofInput (input : List Nat) (w : Int) : Device :=
  { readScript := fun k => if k < input.length then DevEvent.byte (input.getD k 0)
                           else DevEvent.fail 0,
    writeScript := fun _ => w, reads := 0, written := [] }

/-- A device at its start whose reads deliver the byte `b` for ever and whose
writes return `w`. -/
def Device.constant (b : Nat) (w : Int) : Device :=
  { readScript := fun _ => DevEvent.byte b, writeScript := fun _ => w, reads := 0,
    written := [] }

/-- A buffer holding the bytes of a list, zero past its end. -/
def bufferOf (bytes : List Nat) : Nat → Nat := fun k => bytes.getD k 0

/-- An interruption point with the given deadline and `wakeNow` flag, used
in the examples. -/
def exampleIntPoint (deadline : Int) (wakeNow : Bool) : IntPointStatus :=
  { intPointID := 1, file_id := -1, absSyscallTime := deadline, backupQueue := 0,
    queueSize := 0, wakeNow := wakeNow, sizeofSample := 0, sampNum := 0, registers := [],
    targetSampleMem := 0 }

/-- A process with two threads, an image of 4 bytes at address 100 and a
program of 2 bytes at address 200, used in the examples. -/
def exampleProcess (pid : Int) (status : Lifecycle) (points : List IntPointStatus) :
    ProcessStatus :=
  { pid := pid, ppid := 0, status := status, numThreads := 2, exitCode := 0,
    processImageBase := 100, processImageSize := 4, programBase := 200, programSize := 2,
    fileDescriptors := [0, 1, 2], interruptionPoints := points }

/-- Embedding of `NullFile::lseek(pos, whence)`.  The error numbers come
from `<errno.h>`, the values of `whence` from `<stdio.h>`. -/
def NullFile.lseek (EBADF EINVAL SEEK_SET SEEK_CUR SEEK_END : Int) (_pos : Int)
    (whence : Int) : Int :=
  if whence = SEEK_SET ∨ whence = SEEK_CUR ∨ whence = SEEK_END then -EBADF else -EINVAL

/-- Embedding of `ZeroFile::lseek(pos, whence)`. -/
def ZeroFile.lseek (EBADF EINVAL SEEK_SET SEEK_CUR SEEK_END : Int) (_pos : Int)
    (whence : Int) : Int :=
  if whence = SEEK_SET ∨ whence = SEEK_CUR ∨ whence = SEEK_END then -EBADF else -EINVAL

/-- A device at its start whose reads deliver `input` in turn, end of file
after that, and whose writes return the values of `results` in turn, `w`
after that. -/
def Device.scripted (input : List Nat) (results : List Int) (w : Int) : Device :=
  { readScript := fun k => if k < input.length then DevEvent.byte (input.getD k 0)
                           else DevEvent.fail 0,
    writeScript := fun k => results.getD k w, reads := 0, written := [] }

/-! ## `file.cpp`: the iterations of the loop of `TerminalDevice::read` -/

/-- One iteration of the text-mode loop of `TerminalDevice::read`: the
counter `i` and the offset `buffer` when it starts (the device read of the
iteration stores at `buffer`), whether the discard branch was taken, the
counter when the body is left (after `i--` in the discard branch), and the
counter and offset after the loop increment when the loop goes on. -/
structure LoopStep where
  i : Nat
  buffer : Int
  discard : Bool
  iBody : Nat
  next : Option (Nat × Int)
  deriving DecidableEq, Repr

/-- The loop `readLoop` together with the list of the iterations it runs. -/
def readLoopTrace (len : Nat) :
    Nat → TerminalDevice → (Int → Nat) → Nat → Int → Option ReadResult × List LoopStep
  | fuel, td, mem, i, buffer =>
    if i < len then
      match fuel with
      | 0 => (none, [])
      | fuel + 1 =>
        let r := td.device.read mem buffer 1
        if r.1 ≤ 0 then
          (some ⟨if buffer = 0 then r.1 else buffer, { td with device := r.2.1 }, r.2.2⟩,
            [⟨i, buffer, false, i, none⟩])
        else if r.2.2 buffer = 13 then
          (some ⟨toSsize (i + 1),
              { td with device := echoWrite td.echo r.2.1 [13, 10], skipNewline := true },
              Function.update r.2.2 buffer 10⟩,
            [⟨i, buffer, false, i, none⟩])
        else if r.2.2 buffer = 10 then
          if td.skipNewline then
            let t := readLoopTrace len fuel
              { td with device := r.2.1, skipNewline := false } r.2.2
              (incSize (decSize i)) (buffer - 1 + 1)
            (t.1, ⟨i, buffer, true, decSize i, some (incSize (decSize i), buffer - 1 + 1)⟩
              :: t.2)
          else
            (some ⟨toSsize (i + 1),
                { td with device := echoWrite td.echo r.2.1 [13, 10] }, r.2.2⟩,
              [⟨i, buffer, false, i, none⟩])
        else
          let t := readLoopTrace len fuel
            { td with device := echoWrite td.echo r.2.1 [r.2.2 buffer], skipNewline := false }
            r.2.2 (incSize i) (buffer + 1)
          (t.1, ⟨i, buffer, false, i, some (incSize i, buffer + 1)⟩ :: t.2)
    else (some ⟨toSsize len, td, mem⟩, [])

/-- A terminal in text mode right after a carriage return was received:
`skipNewline` is set. -/
def TerminalDevice.afterCarriageReturn (device : Device) : TerminalDevice :=
  { device := device, echo := false, binary := false, skipNewline := true }

/-- A device at its start whose reads deliver the letter `a` `n` times and
line feeds after that, and whose writes return `w`. -/
def Device.longLine (n : Nat) (w : Int) : Device :=
  { readScript := fun k => if k < n then DevEvent.byte 97 else DevEvent.byte 10,
    writeScript := fun _ => w, reads := 0, written := [] }

/-! ## Properties: the backup area base and the record layout -/

/-- C1: `getProcessesBackupAreaBase` returns the sum of `backupSramBase` and
the two allocator extents in 32-bit unsigned arithmetic; it is a function of
these three values alone. -/
theorem getProcessesBackupAreaBase_spec (backupSramBase allocatorExtent backupAllocatorExtent : Nat) :
    getProcessesBackupAreaBase backupSramBase allocatorExtent backupAllocatorExtent
      = (backupSramBase + allocatorExtent + backupAllocatorExtent) % WORD := by
  unfold getProcessesBackupAreaBase addU32 WORD
  omega

theorem alignUp_one (off : Nat) : alignUp off 1 = off := by
  simp [alignUp]

theorem memberOffsets_packed {ν : Type} (ms : List (Member ν)) (off : Nat) :
    memberOffsets true off ms
      = (List.range ms.length).map (fun k => off + sizeBefore ms k) := by
  induction ms generalizing off with
  | nil => simp [memberOffsets]
  | cons m ms ih =>
    simp only [memberOffsets, Member.required, if_true, alignUp_one, ih, List.length_cons,
      List.range_succ_eq_map, List.map_cons, List.map_map]
    refine congrArg₂ _ (by simp [sizeBefore]) ?_
    apply List.map_congr_left
    intro k _
    simp [sizeBefore, Nat.add_assoc]

theorem membersEnd_packed {ν : Type} (ms : List (Member ν)) (off : Nat) :
    membersEnd true off ms = off + (ms.map Member.size).sum := by
  induction ms generalizing off with
  | nil => simp [membersEnd]
  | cons m ms ih =>
    simp [membersEnd, Member.required, alignUp_one, ih, Nat.add_assoc]

theorem structAlign_packed {ν : Type} (ms : List (Member ν)) : structAlign true ms = 1 := by
  unfold structAlign
  have h : ∀ (l : List (Member ν)), (l.map (Member.required true)).foldl max 1 = 1 := by
    intro l
    induction l with
    | nil => rfl
    | cons m l ih => simpa [Member.required] using ih
  exact h ms

theorem sizeofStruct_packed {ν : Type} (ms : List (Member ν)) :
    sizeofStruct true ms = (ms.map Member.size).sum := by
  simp [sizeofStruct, structAlign_packed, alignUp_one, membersEnd_packed]

/-- C2: both serialized records are laid out without padding and in the
order of their declaration: every member starts at the sum of the sizes of
the members before it, `interruptionPoints` has `1 + MAX_THREADS_PER_PROCESS`
elements, `sizeof(IntPointStatus) = 34 + 4 * CTXSAVE_SIZE` and
`sizeof(ProcessStatus) = 32 + 4 * MAX_OPEN_FILES +
(1 + MAX_THREADS_PER_PROCESS) * sizeof(IntPointStatus)`. -/
theorem serialized_records_layout (CTXSAVE_SIZE MAX_OPEN_FILES MAX_THREADS_PER_PROCESS : Nat) :
    (IntPointStatus.members CTXSAVE_SIZE).map Member.name
        = [.intPointID, .file_id, .absSyscallTime, .backupQueue, .queueSize, .wakeNow,
           .sizeofSample, .sampNum, .registers, .targetSampleMem]
    ∧ memberOffsets IntPointStatus.packed 0 (IntPointStatus.members CTXSAVE_SIZE)
        = (List.range 10).map (sizeBefore (IntPointStatus.members CTXSAVE_SIZE))
    ∧ memberOffsets IntPointStatus.packed 0 (IntPointStatus.members CTXSAVE_SIZE)
        = [0, 4, 8, 16, 20, 24, 25, 26, 30, 30 + 4 * CTXSAVE_SIZE]
    ∧ IntPointStatus.sizeof CTXSAVE_SIZE = 34 + 4 * CTXSAVE_SIZE
    ∧ (ProcessStatus.members CTXSAVE_SIZE MAX_OPEN_FILES MAX_THREADS_PER_PROCESS).map Member.name
        = [.pid, .ppid, .status, .numThreads, .exitCode, .processImageBase,
           .processImageSize, .programBase, .programSize, .fileDescriptors,
           .interruptionPoints]
    ∧ memberOffsets ProcessStatus.packed 0
          (ProcessStatus.members CTXSAVE_SIZE MAX_OPEN_FILES MAX_THREADS_PER_PROCESS)
        = (List.range 11).map
            (sizeBefore (ProcessStatus.members CTXSAVE_SIZE MAX_OPEN_FILES MAX_THREADS_PER_PROCESS))
    ∧ memberOffsets ProcessStatus.packed 0
          (ProcessStatus.members CTXSAVE_SIZE MAX_OPEN_FILES MAX_THREADS_PER_PROCESS)
        = [0, 4, 8, 10, 12, 16, 20, 24, 28, 32, 32 + 4 * MAX_OPEN_FILES]
    ∧ ((ProcessStatus.members CTXSAVE_SIZE MAX_OPEN_FILES MAX_THREADS_PER_PROCESS).filter
          (fun m => decide (m.name = ProcessField.interruptionPoints))).map
          (fun m => (m.count, m.elemSize))
        = [(1 + MAX_THREADS_PER_PROCESS, IntPointStatus.sizeof CTXSAVE_SIZE)]
    ∧ ProcessStatus.sizeof CTXSAVE_SIZE MAX_OPEN_FILES MAX_THREADS_PER_PROCESS
        = 32 + 4 * MAX_OPEN_FILES
          + (1 + MAX_THREADS_PER_PROCESS) * IntPointStatus.sizeof CTXSAVE_SIZE := by
  have hips : IntPointStatus.sizeof CTXSAVE_SIZE = 34 + 4 * CTXSAVE_SIZE := by
    simp only [IntPointStatus.sizeof, IntPointStatus.packed, sizeofStruct_packed]
    simp [IntPointStatus.members, Member.size, Member.scalar, Member.array, CType.size]
    omega
  refine ⟨rfl, ?_, ?_, hips, rfl, ?_, ?_, ?_, ?_⟩
  · simp only [IntPointStatus.packed, memberOffsets_packed]
    simp [IntPointStatus.members]
  · simp only [IntPointStatus.packed, memberOffsets_packed]
    simp [IntPointStatus.members, List.range_succ, sizeBefore, Member.size, Member.scalar,
      Member.array, CType.size]
    omega
  · simp only [ProcessStatus.packed, memberOffsets_packed]
    simp [ProcessStatus.members]
  · simp only [ProcessStatus.packed, memberOffsets_packed]
    simp [ProcessStatus.members, List.range_succ, sizeBefore, Member.size, Member.scalar,
      Member.array, CType.size]
    omega
  · simp [ProcessStatus.members, Member.scalar, Member.array]
  · simp only [ProcessStatus.sizeof, ProcessStatus.packed, sizeofStruct_packed]
    simp [ProcessStatus.members, Member.size, Member.scalar, Member.array, CType.size]
    ring

/-! ## Properties: `NullFile` and `ZeroFile` -/

theorem toSsize_of_le (len : Nat) (h : len ≤ SSIZE_MAX) : toSsize len = (len : Int) := by
  unfold SSIZE_MAX at h
  have h1 : len % WORD = len := Nat.mod_eq_of_lt (by unfold WORD; omega)
  unfold toSsize
  rw [h1, if_pos (by unfold SSIZE_MAX; omega)]

theorem memset_apply (data : Int → Nat) (c n : Nat) (k : Int) :
    memset data c n k = if 0 ≤ k ∧ k < (n : Int) then c % 256 else data k := by
  induction n with
  | zero =>
    simp only [memset]
    rw [if_neg]
    omega
  | succ n ih =>
    simp only [memset, Function.update_apply, ih]
    by_cases hk : k = (n : Int)
    · subst hk
      simp
    · have hiff : (0 ≤ k ∧ k < ((n + 1 : Nat) : Int)) ↔ (0 ≤ k ∧ k < (n : Int)) := by
        constructor
        · rintro ⟨h0, h1⟩
          exact ⟨h0, by omega⟩
        · rintro ⟨h0, h1⟩
          exact ⟨h0, by omega⟩
      simp only [hk, if_false]
      by_cases h : 0 ≤ k ∧ k < (n : Int)
      · rw [if_pos h, if_pos (hiff.mpr h)]
      · rw [if_neg h, if_neg (fun h2 => h (hiff.mp h2))]

/-- C9: `NullFile` is a data sink: for every `len` representable as
`ssize_t`, `write` returns `len` whatever the buffer holds (the buffer is not
read, there is no state to change); `read` returns `-EBADF` for every buffer
and length and leaves the buffer as it was. -/
theorem NullFile_sink (EBADF : Int) :
    (∀ (len : Nat), len ≤ SSIZE_MAX →
      ∀ (data data2 : Nat → Nat),
        NullFile.write data len = (len : Int) ∧ NullFile.write data2 len = NullFile.write data len)
    ∧ ∀ (buf : Int → Nat) (len : Nat),
        (NullFile.read EBADF buf len).1 = -EBADF ∧ (NullFile.read EBADF buf len).2 = buf := by
  refine ⟨?_, ?_⟩
  · intro len h data data2
    exact ⟨toSsize_of_le len h, rfl⟩
  · intro buf len
    exact ⟨rfl, rfl⟩

theorem NullFile_sink_witness :
    (5 ≤ SSIZE_MAX) ∧ NullFile.write (fun _ => 65) 5 = (5 : Int)
      ∧ (NullFile.read 9 (fun _ => 65) 5).1 = -9 :=
  ⟨by decide, ((NullFile_sink 9).1 5 (by decide) (fun _ => 65) (fun _ => 0)).1,
    ((NullFile_sink 9).2 (fun _ => 65) 5).1⟩

/-- C10: `ZeroFile` is a zero source: for every `len` representable as
`ssize_t`, `read` returns `len`, the bytes of the buffer at the offsets
`0, ..., len-1` are 0 afterwards and every other byte is unchanged; `write`
returns `-EBADF` for every buffer and length. -/
theorem ZeroFile_source (EBADF : Int) :
    (∀ (len : Nat), len ≤ SSIZE_MAX →
      ∀ (buf : Int → Nat),
        (ZeroFile.read buf len).1 = (len : Int)
        ∧ (∀ k : Int, 0 ≤ k → k < (len : Int) → (ZeroFile.read buf len).2 k = 0)
        ∧ (∀ k : Int, ¬ (0 ≤ k ∧ k < (len : Int)) → (ZeroFile.read buf len).2 k = buf k))
    ∧ ∀ (data : Nat → Nat) (len : Nat), ZeroFile.write EBADF data len = -EBADF := by
  refine ⟨?_, ?_⟩
  · intro len h buf
    refine ⟨toSsize_of_le len h, ?_, ?_⟩
    · intro k h0 h1
      simp [ZeroFile.read, memset_apply, h0, h1]
    · intro k hk
      simp only [ZeroFile.read, memset_apply, if_neg hk]
  · intro data len
    rfl

theorem ZeroFile_source_witness :
    (3 ≤ SSIZE_MAX) ∧ (ZeroFile.read (fun _ => 7) 3).1 = (3 : Int)
      ∧ (ZeroFile.read (fun _ => 7) 3).2 2 = 0 ∧ (ZeroFile.read (fun _ => 7) 3).2 3 = 7 :=
  ⟨by decide, ((ZeroFile_source 9).1 3 (by decide) (fun _ => 7)).1,
    ((ZeroFile_source 9).1 3 (by decide) (fun _ => 7)).2.1 2 (by decide) (by decide),
    ((ZeroFile_source 9).1 3 (by decide) (fun _ => 7)).2.2 3 (by decide)⟩

/-! ## Properties: `resume()` with nothing to restore -/

theorem resume_nothing (M : Nat) (reclock : Int → Int → Int) (now : Int) (st : SuspendManager)
    (h : scanDirty st = []) : resume M reclock now st = (-1, st) := by
  simp [resume, h]

/-- C3: when the Backup State Area holds no dirty record `resume()` returns
`-1` and leaves the state as it was; so any number of calls in a row, at any
clock values, return `-1` each. -/
theorem resume_no_dirty_returns_minus_one (MAX_THREADS_PER_PROCESS : Nat)
    (reclock : Int → Int → Int) (st : SuspendManager) (h : scanDirty st = []) :
    (∀ now : Int, (resume MAX_THREADS_PER_PROCESS reclock now st).1 = -1)
    ∧ ∀ clocks : List Int,
        (resumeCalls MAX_THREADS_PER_PROCESS reclock clocks st).1
          = List.replicate clocks.length (-1)
        ∧ scanDirty (resumeCalls MAX_THREADS_PER_PROCESS reclock clocks st).2 = [] := by
  refine ⟨fun now => by rw [resume_nothing _ _ _ _ h], ?_⟩
  intro clocks
  induction clocks with
  | nil => exact ⟨rfl, h⟩
  | cons now rest ih =>
    simp only [resumeCalls, resume_nothing _ _ _ _ h, List.length_cons, List.replicate_succ]
    exact ⟨by rw [ih.1], ih.2⟩

theorem resume_no_dirty_returns_minus_one_witness :
    scanDirty (SuspendManager.init 4 64 (fun _ => 0)) = []
    ∧ (resumeCalls 8 (fun _ d => d) [5, 6, 7] (SuspendManager.init 4 64 (fun _ => 0))).1
        = [-1, -1, -1] :=
  ⟨rfl, ((resume_no_dirty_returns_minus_one 8 (fun _ d => d)
    (SuspendManager.init 4 64 (fun _ => 0)) rfl).2 [5, 6, 7]).1⟩

/-! ## Properties: the hibernation barrier -/

theorem barrier_false_of_not_suspended (st : SuspendManager)
    (h : ∃ p ∈ st.processes, p.status ≠ Lifecycle.suspended ∧ p.status ≠ Lifecycle.terminated) :
    hibernationBarrierSatisfied st = false := by
  obtain ⟨p, hp, h1, h2⟩ := h
  rw [← Bool.not_eq_true]
  intro hb
  have := (List.all_eq_true.mp hb) p hp
  simp [h1, h2] at this

theorem barrier_true_iff (st : SuspendManager) :
    hibernationBarrierSatisfied st = true
      ↔ ∀ p ∈ st.processes, p.status = Lifecycle.suspended ∨ p.status = Lifecycle.terminated := by
  unfold hibernationBarrierSatisfied
  rw [List.all_eq_true]
  constructor
  · intro h p hp
    have := h p hp
    simp at this
    exact this.symm
  · intro h p hp
    have := h p hp
    simp
    exact this.symm

theorem hibernateDaemon_waits (policy : List ProcessStatus → Bool) (st : SuspendManager)
    (h : hibernationBarrierSatisfied st = false) : hibernateDaemon policy st = st := by
  unfold hibernateDaemon
  cases st.hibernTask <;> simp [h]

theorem hibernateDaemon_proceeds (policy : List ProcessStatus → Bool) (st : SuspendManager)
    (hw : st.hibernTask = HibernTask.waiting)
    (h : (hibernateDaemon policy st).hibernTask = HibernTask.poweredDown) :
    hibernationBarrierSatisfied st = true ∧ policy (suspendedSet st) = true := by
  unfold hibernateDaemon at h
  rw [hw] at h
  simp only at h
  by_cases hb : hibernationBarrierSatisfied st = true
  · by_cases hp : policy (suspendedSet st) = true
    · exact ⟨hb, hp⟩
    · simp [hb, hp, hw] at h
  · simp [hb, hw] at h

/-- C4: in every state the coordinator reaches from kernel start, whatever
the policy: if some live process has a status other than `Suspended` or
`Terminated`, a run of the Hibernate Task changes nothing (nothing is
serialized, the task stays waiting on `hibernWaiting`); when a run of the
waiting task does hand off to power-down, every process was `Suspended` or
`Terminated` and the policy approved; and the barrier alone is not
sufficient: with every live process suspended and a declining policy the
task stays waiting. -/
theorem hibernation_waits_for_barrier :
    (∀ (policy : List ProcessStatus → Bool) (slotCapacity regionCapacity : Nat)
        (memory : Nat → Nat) (events : List Event),
        ((∃ p ∈ (run policy (SuspendManager.init slotCapacity regionCapacity memory)
              events).processes,
            p.status ≠ Lifecycle.suspended ∧ p.status ≠ Lifecycle.terminated) →
          hibernateDaemon policy
              (run policy (SuspendManager.init slotCapacity regionCapacity memory) events)
            = run policy (SuspendManager.init slotCapacity regionCapacity memory) events)
        ∧ ((run policy (SuspendManager.init slotCapacity regionCapacity memory)
              events).hibernTask = HibernTask.waiting →
            (hibernateDaemon policy
              (run policy (SuspendManager.init slotCapacity regionCapacity memory)
                events)).hibernTask = HibernTask.poweredDown →
            (∀ p ∈ (run policy (SuspendManager.init slotCapacity regionCapacity memory)
                events).processes,
              p.status = Lifecycle.suspended ∨ p.status = Lifecycle.terminated)
            ∧ policy (suspendedSet
                (run policy (SuspendManager.init slotCapacity regionCapacity memory)
                  events)) = true))
    ∧ (hibernationBarrierSatisfied
          (run (fun _ => false) (SuspendManager.init 4 64 (fun _ => 0))
            [Event.spawn (exampleProcess 1 Lifecycle.running []), Event.requestSuspend 1]) = true
        ∧ (run (fun _ => false) (SuspendManager.init 4 64 (fun _ => 0))
            [Event.spawn (exampleProcess 1 Lifecycle.running []),
              Event.requestSuspend 1]).processes.map (fun p => (p.pid, p.status))
            = [(1, Lifecycle.suspended)]
        ∧ (hibernateDaemon (fun _ => false)
            (run (fun _ => false) (SuspendManager.init 4 64 (fun _ => 0))
              [Event.spawn (exampleProcess 1 Lifecycle.running []),
                Event.requestSuspend 1])).hibernTask = HibernTask.waiting
        ∧ (hibernateDaemon (fun _ => false)
            (run (fun _ => false) (SuspendManager.init 4 64 (fun _ => 0))
              [Event.spawn (exampleProcess 1 Lifecycle.running []),
                Event.requestSuspend 1])).slots = []) := by
  refine ⟨?_, by decide, by decide, by decide, by decide⟩
  intro policy slotCapacity regionCapacity memory events
  refine ⟨fun h => hibernateDaemon_waits policy _ (barrier_false_of_not_suspended _ h), ?_⟩
  intro hw hp
  obtain ⟨hb, hpol⟩ := hibernateDaemon_proceeds policy _ hw hp
  exact ⟨(barrier_true_iff _).mp hb, hpol⟩

theorem hibernation_waits_for_barrier_witness :
    (∃ p ∈ (run (fun _ => true) (SuspendManager.init 4 64 (fun _ => 0))
          [Event.spawn (exampleProcess 1 Lifecycle.running []),
            Event.spawn (exampleProcess 2 Lifecycle.running []),
            Event.requestSuspend 1]).processes,
        p.status ≠ Lifecycle.suspended ∧ p.status ≠ Lifecycle.terminated)
    ∧ hibernateDaemon (fun _ => true)
          (run (fun _ => true) (SuspendManager.init 4 64 (fun _ => 0))
            [Event.spawn (exampleProcess 1 Lifecycle.running []),
              Event.spawn (exampleProcess 2 Lifecycle.running []),
              Event.requestSuspend 1])
        = run (fun _ => true) (SuspendManager.init 4 64 (fun _ => 0))
            [Event.spawn (exampleProcess 1 Lifecycle.running []),
              Event.spawn (exampleProcess 2 Lifecycle.running []),
              Event.requestSuspend 1]
    ∧ (hibernateDaemon (fun _ => true)
          (run (fun _ => true) (SuspendManager.init 4 64 (fun _ => 0))
            [Event.spawn (exampleProcess 1 Lifecycle.running []),
              Event.spawn (exampleProcess 2 Lifecycle.running []),
              Event.requestSuspend 1, Event.requestSuspend 2])).hibernTask
        = HibernTask.poweredDown := by
  have hex : ∃ p ∈ (run (fun _ => true) (SuspendManager.init 4 64 (fun _ => 0))
          [Event.spawn (exampleProcess 1 Lifecycle.running []),
            Event.spawn (exampleProcess 2 Lifecycle.running []),
            Event.requestSuspend 1]).processes,
        p.status ≠ Lifecycle.suspended ∧ p.status ≠ Lifecycle.terminated :=
    ⟨exampleProcess 2 Lifecycle.running [], by decide, by decide, by decide⟩
  exact ⟨hex, (hibernation_waits_for_barrier.1 (fun _ => true) 4 64 (fun _ => 0) _).1 hex,
    by decide⟩

/-! ## Properties: serialization and `resume()` -/

theorem resumeScan_snoc (M : Nat) (reclock : Int → Int → Int) (now : Int) (s : BackupSlot)
    (hs : (s.dirty && recordValid M s.record) = true) :
    ∀ (a : List BackupSlot) (memory : Nat → Nat) (procs : List ProcessStatus),
      (resumeScan M reclock now (a ++ [s]) memory procs).2.1
          = writeRegion
              (writeRegion (resumeScan M reclock now a memory procs).2.1
                s.record.processImageBase s.image)
              s.record.programBase s.program
      ∧ (resumeScan M reclock now (a ++ [s]) memory procs).2.2.1
          = (resumeScan M reclock now a memory procs).2.2.1
              ++ [restoredRecord reclock now s.record] := by
  intro a
  induction a with
  | nil =>
    intro memory procs
    simp [resumeScan, hs]
  | cons x a ih =>
    intro memory procs
    by_cases hx : (x.dirty && recordValid M x.record) = true
    · simp only [List.cons_append, resumeScan, hx, if_true]
      exact ih _ _
    · simp only [List.cons_append, resumeScan, hx, if_false]
      exact ih _ _

theorem readRegion_getD (memory : Nat → Nat) (base size k : Nat) (hk : k < size) :
    (readRegion memory base size).getD k 0 = memory (base + k) := by
  simp [readRegion, List.getD_eq_getElem?_getD, hk]

theorem readRegion_length (memory : Nat → Nat) (base size : Nat) :
    (readRegion memory base size).length = size := by
  simp [readRegion]

theorem writeRegion_inside (memory : Nat → Nat) (base : Nat) (bytes : List Nat) (k : Nat)
    (hk : k < bytes.length) :
    writeRegion memory base bytes (base + k) = bytes.getD k 0 := by
  unfold writeRegion
  rw [if_pos ⟨by omega, by omega⟩]
  congr 1
  omega

theorem resume_snoc (M : Nat) (reclock : Int → Int → Int) (now : Int) (st : SuspendManager)
    (a : List BackupSlot) (s : BackupSlot) (hslots : st.slots = a ++ [s])
    (hs : (s.dirty && recordValid M s.record) = true) :
    (resume M reclock now st).2.memory
        = writeRegion
            (writeRegion (resumeScan M reclock now a st.memory st.processes).2.1
              s.record.processImageBase s.image)
            s.record.programBase s.program
    ∧ (resume M reclock now st).2.processes
        = (resumeScan M reclock now a st.memory st.processes).2.2.1
            ++ [restoredRecord reclock now s.record] := by
  have hd : s.dirty = true := by
    cases h : s.dirty
    · simp [h] at hs
    · rfl
  have hne : (scanDirty st).isEmpty = false := by
    simp [scanDirty, hslots, List.filter_append, hd]
  obtain ⟨h1, h2⟩ := resumeScan_snoc M reclock now s hs a st.memory st.processes
  unfold resume
  rw [hne, hslots]
  simp only [Bool.false_eq_true, if_false]
  exact ⟨h1, h2⟩

theorem round_trip_memory (orig m0 : Nat → Nat) (ib isz pb psz : Nat) :
    (∀ k, k < isz →
      writeRegion (writeRegion m0 ib (readRegion orig ib isz)) pb (readRegion orig pb psz)
        (ib + k) = orig (ib + k))
    ∧ (∀ k, k < psz →
      writeRegion (writeRegion m0 ib (readRegion orig ib isz)) pb (readRegion orig pb psz)
        (pb + k) = orig (pb + k)) := by
  refine ⟨?_, ?_⟩
  · intro k hk
    by_cases hin : pb ≤ ib + k ∧ ib + k < pb + psz
    · obtain ⟨j, hj⟩ := Nat.exists_eq_add_of_le hin.1
      have hjlt : j < psz := by omega
      rw [hj, writeRegion_inside _ _ _ _ (by rw [readRegion_length]; exact hjlt),
        readRegion_getD _ _ _ _ hjlt]
    · have hout : ∀ m : Nat → Nat,
          writeRegion m pb (readRegion orig pb psz) (ib + k) = m (ib + k) := by
        intro m
        unfold writeRegion
        rw [if_neg (by rw [readRegion_length]; exact hin)]
      rw [hout, writeRegion_inside _ _ _ _ (by rw [readRegion_length]; exact hk),
        readRegion_getD _ _ _ _ hk]
  · intro k hk
    rw [writeRegion_inside _ _ _ _ (by rw [readRegion_length]; exact hk),
      readRegion_getD _ _ _ _ hk]

theorem serializeProcess_fits (st : SuspendManager) (p : ProcessStatus)
    (hfit : fitsBackupArea st p = true) :
    ∃ st1, serializeProcess st p = some st1
      ∧ st1.slots = st.slots ++ [serializedSlot st.memory p] := by
  refine ⟨{ st with
      slots := st.slots ++ [serializedSlot st.memory p],
      processes := setStatus p.pid Lifecycle.serialized st.processes }, ?_, rfl⟩
  simp only [serializeProcess, hfit, if_true]

/-- C5: for every valid `ProcessStatus` whose image and program sizes fit
the Backup State Area, serializing it into a slot succeeds and, after a power
cycle that leaves any content in main memory, `resume()` reinstates a
process with the same pid, the same `fileDescriptors` table and the same
thread count, and main memory holds again the bytes of the image and of the
program that were there at serialization. -/
theorem serialize_resume_round_trip (MAX_THREADS_PER_PROCESS : Nat)
    (reclock : Int → Int → Int) (now : Int) (junk : Nat → Nat) (st : SuspendManager)
    (p : ProcessStatus) (hvalid : recordValid MAX_THREADS_PER_PROCESS p = true)
    (hfit : fitsBackupArea st p = true) :
    ∃ st1, serializeProcess st p = some st1
      ∧ ∃ q, (resume MAX_THREADS_PER_PROCESS reclock now
                (powerCycle junk st1)).2.processes.getLast? = some q
        ∧ q.pid = p.pid
        ∧ q.fileDescriptors = p.fileDescriptors
        ∧ q.numThreads = p.numThreads
        ∧ (∀ k, k < p.processImageSize.toNat →
            (resume MAX_THREADS_PER_PROCESS reclock now (powerCycle junk st1)).2.memory
                (p.processImageBase + k)
              = st.memory (p.processImageBase + k))
        ∧ (∀ k, k < p.programSize.toNat →
            (resume MAX_THREADS_PER_PROCESS reclock now (powerCycle junk st1)).2.memory
                (p.programBase + k)
              = st.memory (p.programBase + k)) := by
  obtain ⟨st1, hser, hslots⟩ := serializeProcess_fits st p hfit
  have hdv : ((serializedSlot st.memory p).dirty
      && recordValid MAX_THREADS_PER_PROCESS (serializedSlot st.memory p).record) = true := by
    have h1 : (serializedSlot st.memory p).dirty = true := by
      simp [serializedSlot, BackupSlot.dirty]
    have h2 : recordValid MAX_THREADS_PER_PROCESS (serializedSlot st.memory p).record
        = recordValid MAX_THREADS_PER_PROCESS p := rfl
    rw [h1, h2, hvalid]
    rfl
  have hs2 : (powerCycle junk st1).slots = st.slots ++ [serializedSlot st.memory p] := hslots
  obtain ⟨hm, hp⟩ := resume_snoc MAX_THREADS_PER_PROCESS reclock now (powerCycle junk st1)
    st.slots (serializedSlot st.memory p) hs2 hdv
  obtain ⟨hi, hg⟩ := round_trip_memory st.memory
    (resumeScan MAX_THREADS_PER_PROCESS reclock now st.slots (powerCycle junk st1).memory
      (powerCycle junk st1).processes).2.1
    p.processImageBase p.processImageSize.toNat p.programBase p.programSize.toNat
  refine ⟨st1, hser, restoredRecord reclock now (serializedSlot st.memory p).record, ?_, rfl,
    rfl, rfl, ?_, ?_⟩
  · rw [hp]
    simp
  · intro k hk
    rw [hm]
    exact hi k hk
  · intro k hk
    rw [hm]
    exact hg k hk

theorem serialize_resume_round_trip_witness :
    recordValid 4 (exampleProcess 1 Lifecycle.suspended [exampleIntPoint 10 false]) = true
    ∧ fitsBackupArea (SuspendManager.init 4 64 (fun a => a % 7))
        (exampleProcess 1 Lifecycle.suspended [exampleIntPoint 10 false]) = true
    ∧ ∃ st1, serializeProcess (SuspendManager.init 4 64 (fun a => a % 7))
          (exampleProcess 1 Lifecycle.suspended [exampleIntPoint 10 false]) = some st1
      ∧ ∃ q, (resume 4 (fun _ d => d) 15 (powerCycle (fun _ => 255) st1)).2.processes.getLast?
            = some q
        ∧ q.fileDescriptors = [0, 1, 2]
        ∧ q.numThreads = 2
        ∧ (resume 4 (fun _ d => d) 15 (powerCycle (fun _ => 255) st1)).2.memory 101 = 3
        ∧ (resume 4 (fun _ d => d) 15 (powerCycle (fun _ => 255) st1)).2.memory 201 = 5 := by
  obtain ⟨st1, h1, q, h2, _, h4, h5, h6, h7⟩ := serialize_resume_round_trip 4 (fun _ d => d) 15
    (fun _ => 255) (SuspendManager.init 4 64 (fun a => a % 7))
    (exampleProcess 1 Lifecycle.suspended [exampleIntPoint 10 false]) rfl rfl
  exact ⟨rfl, rfl, st1, h1, q, h2, h4, h5, h6 1 (by decide), h7 1 (by decide)⟩

theorem chunk_self (data : Nat → Nat) (a : Nat) : chunk data a a = [] := by
  simp [chunk]

theorem chunk_cons (data : Nat → Nat) (i n : Nat) :
    chunk data i (i + (n + 1)) = data i :: chunk data (i + 1) (i + 1 + n) := by
  have h1 : i + (n + 1) - i = n + 1 := by omega
  have h2 : i + 1 + n - (i + 1) = n := by omega
  simp [chunk, h1, h2, List.range'_succ]

theorem chunk_snoc (data : Nat → Nat) (cs i : Nat) (h : cs ≤ i) :
    chunk data cs (i + 1) = chunk data cs i ++ [data i] := by
  have h1 : i + 1 - cs = (i - cs) + 1 := by omega
  have h2 : cs + (i - cs) = i := by omega
  simp [chunk, h1, List.range'_concat, h2]

theorem Device.write_fst (d : Device) (bs : List Nat) :
    (d.write bs).1 = d.writeScript d.written.length := rfl

theorem Device.write_written (d : Device) (bs : List Nat) :
    (d.write bs).2.written = d.written ++ [bs] := rfl

theorem Device.write_writeScript (d : Device) (bs : List Nat) :
    (d.write bs).2.writeScript = d.writeScript := rfl

theorem Device.write_reads (d : Device) (bs : List Nat) :
    (d.write bs).2.reads = d.reads := rfl

theorem Device.write_readScript (d : Device) (bs : List Nat) :
    (d.write bs).2.readScript = d.readScript := rfl

theorem lfToCrlf_cons (b : Nat) (bs : List Nat) :
    lfToCrlf (b :: bs) = (if b = 10 then [13, 10] else [b]) ++ lfToCrlf bs := by
  simp [lfToCrlf]

theorem writeLoop_accepting (data : Nat → Nat) (len : Nat) (n : Nat) :
    ∀ (i chunkstart : Nat) (dev : Device), chunkstart ≤ i →
      (∀ k, 0 < dev.writeScript k) →
      (writeLoop data len n i chunkstart dev).1 = toSsize len
      ∧ (writeLoop data len n i chunkstart dev).2.written.flatten
          = dev.written.flatten ++ chunk data chunkstart i
              ++ lfToCrlf (chunk data i (i + n))
      ∧ (writeLoop data len n i chunkstart dev).2.reads = dev.reads := by
  induction n with
  | zero =>
    intro i cs dev hcs hpos
    by_cases hne : cs = i
    · subst hne
      simp [writeLoop, chunk_self, lfToCrlf]
    · have hw : ¬ (dev.write (chunk data cs i)).1 ≤ 0 := by
        rw [Device.write_fst]; exact not_le.mpr (hpos _)
      simp [writeLoop, hne, hw, Device.write_written, chunk_self, lfToCrlf, Device.write_reads]
  | succ n ih =>
    intro i cs dev hcs hpos
    rw [chunk_cons, lfToCrlf_cons]
    by_cases hnl : data i = 10
    · have hw2 : ∀ d : Device, (∀ k, 0 < d.writeScript k) → ¬ (d.write [13, 10]).1 ≤ 0 := by
        intro d hd
        rw [Device.write_fst]; exact not_le.mpr (hd _)
      by_cases hlen : 0 < i - cs
      · have hw : ¬ (dev.write (chunk data cs i)).1 ≤ 0 := by
          rw [Device.write_fst]; exact not_le.mpr (hpos _)
        have hpos1 : ∀ k, 0 < (dev.write (chunk data cs i)).2.writeScript k := hpos
        have hpos2 : ∀ k, 0 < ((dev.write (chunk data cs i)).2.write [13, 10]).2.writeScript k :=
          hpos
        obtain ⟨h1, h2, h3⟩ := ih (i + 1) (i + 1)
          ((dev.write (chunk data cs i)).2.write [13, 10]).2 (le_refl _) hpos2
        simp only [writeLoop, hnl, if_true, hlen, hw, if_false, hw2 _ hpos1]
        refine ⟨h1, ?_, ?_⟩
        · rw [h2]
          simp [Device.write_written, chunk_self]
        · rw [h3]; rfl
      · have hcs2 : cs = i := by omega
        subst hcs2
        have hpos2 : ∀ k, 0 < (dev.write [13, 10]).2.writeScript k := hpos
        obtain ⟨h1, h2, h3⟩ := ih (cs + 1) (cs + 1) (dev.write [13, 10]).2 (le_refl _) hpos2
        simp only [writeLoop, hnl, if_true, hlen, if_false, hw2 _ hpos]
        refine ⟨h1, ?_, ?_⟩
        · rw [h2]
          simp [Device.write_written, chunk_self]
        · rw [h3]; rfl
    · obtain ⟨h1, h2, h3⟩ := ih (i + 1) cs dev (by omega) hpos
      simp only [writeLoop, hnl, if_false]
      refine ⟨h1, ?_, h3⟩
      rw [h2, chunk_snoc data cs i hcs]
      simp

/-! ## Properties: `TerminalDevice::read` in text mode -/

theorem Device.read_byte (d : Device) (mem : Int → Nat) (off : Int) (b : Nat)
    (h : d.readScript d.reads = DevEvent.byte b) :
    d.read mem off 1 = (1, d.afterRead, Function.update mem off b) := by
  simp [Device.read, h, Device.afterRead]

theorem Device.read_fail (d : Device) (mem : Int → Nat) (off : Int) (e : Nat)
    (h : d.readScript d.reads = DevEvent.fail e) :
    d.read mem off 1 = (-(e : Int), d.afterRead, mem) := by
  simp [Device.read, h, Device.afterRead]

theorem readLoop_exit (len fuel : Nat) (td : TerminalDevice) (mem : Int → Nat) (i : Nat)
    (buffer : Int) (h : ¬ i < len) :
    readLoop len fuel td mem i buffer = some ⟨toSsize len, td, mem⟩ := by
  unfold readLoop
  rw [if_neg h]

theorem readLoop_fail (len fuel : Nat) (td : TerminalDevice) (mem : Int → Nat) (i : Nat)
    (buffer : Int) (e : Nat) (h : i < len)
    (hev : td.device.readScript td.device.reads = DevEvent.fail e) :
    readLoop len (fuel + 1) td mem i buffer
      = some ⟨if buffer = 0 then -(e : Int) else buffer,
          { td with device := td.device.afterRead }, mem⟩ := by
  rw [readLoop, if_pos h]
  simp [Device.read_fail _ _ _ _ hev]

theorem readLoop_cr (len fuel : Nat) (td : TerminalDevice) (mem : Int → Nat) (i : Nat)
    (buffer : Int) (h : i < len)
    (hev : td.device.readScript td.device.reads = DevEvent.byte 13) :
    readLoop len (fuel + 1) td mem i buffer
      = some ⟨toSsize (i + 1),
          { td with device := echoWrite td.echo td.device.afterRead [13, 10],
                    skipNewline := true },
          Function.update (Function.update mem buffer 13) buffer 10⟩ := by
  rw [readLoop, if_pos h]
  simp [Device.read_byte _ _ _ _ hev]

theorem readLoop_lf_skip (len fuel : Nat) (td : TerminalDevice) (mem : Int → Nat) (i : Nat)
    (buffer : Int) (h : i < len)
    (hev : td.device.readScript td.device.reads = DevEvent.byte 10)
    (hskip : td.skipNewline = true) :
    readLoop len (fuel + 1) td mem i buffer
      = readLoop len fuel { td with device := td.device.afterRead, skipNewline := false }
          (Function.update mem buffer 10) (incSize (decSize i)) (buffer - 1 + 1) := by
  rw [readLoop, if_pos h]
  simp [Device.read_byte _ _ _ _ hev, hskip]

theorem readLoop_lf (len fuel : Nat) (td : TerminalDevice) (mem : Int → Nat) (i : Nat)
    (buffer : Int) (h : i < len)
    (hev : td.device.readScript td.device.reads = DevEvent.byte 10)
    (hskip : td.skipNewline = false) :
    readLoop len (fuel + 1) td mem i buffer
      = some ⟨toSsize (i + 1),
          { td with device := echoWrite td.echo td.device.afterRead [13, 10] },
          Function.update mem buffer 10⟩ := by
  rw [readLoop, if_pos h]
  simp [Device.read_byte _ _ _ _ hev, hskip]

theorem readLoop_other (len fuel : Nat) (td : TerminalDevice) (mem : Int → Nat) (i : Nat)
    (buffer : Int) (b : Nat) (h : i < len)
    (hev : td.device.readScript td.device.reads = DevEvent.byte b)
    (h13 : b ≠ 13) (h10 : b ≠ 10) :
    readLoop len (fuel + 1) td mem i buffer
      = readLoop len fuel
          { td with device := echoWrite td.echo td.device.afterRead [b], skipNewline := false }
          (Function.update mem buffer b) (incSize i) (buffer + 1) := by
  rw [readLoop, if_pos h]
  simp [Device.read_byte _ _ _ _ hev, h13, h10]

theorem normSkip_append (a : List Nat) : ∀ (skip : Bool) (b : List Nat),
    normSkip skip (a ++ b) = normSkip skip a ++ normSkip (skipAfter skip a) b := by
  induction a with
  | nil => intro skip b; simp [normSkip, skipAfter]
  | cons x a ih =>
    intro skip b
    by_cases h13 : x = 13
    · simp [normSkip, skipAfter, h13, ih]
    · by_cases h10 : x = 10
      · cases skip <;> simp [normSkip, skipAfter, h10, ih]
      · simp [normSkip, skipAfter, h13, h10, ih]

theorem skipAfter_append (a : List Nat) : ∀ (skip : Bool) (b : List Nat),
    skipAfter skip (a ++ b) = skipAfter (skipAfter skip a) b := by
  induction a with
  | nil => intro skip b; simp [skipAfter]
  | cons x a ih => intro skip b; simp [skipAfter, ih]

theorem normSkip_crlfToLf : ∀ (n : Nat) (l : List Nat), l.length ≤ n →
    normSkip false l = crlfToLf l
    ∧ ∀ c, normSkip true (c :: l) = if c = 10 then crlfToLf l else crlfToLf (c :: l) := by
  intro n
  induction n with
  | zero =>
    intro l hl
    have : l = [] := List.length_eq_zero.mp (by omega)
    subst this
    refine ⟨by simp [normSkip, crlfToLf], ?_⟩
    intro c
    by_cases h13 : c = 13
    · simp [normSkip, crlfToLf, h13]
    · by_cases h10 : c = 10
      · simp [normSkip, crlfToLf, h10]
      · simp [normSkip, crlfToLf, h13, h10]
  | succ n ih =>
    intro l hl
    cases l with
    | nil =>
      refine ⟨by simp [normSkip, crlfToLf], ?_⟩
      intro c
      by_cases h13 : c = 13
      · simp [normSkip, crlfToLf, h13]
      · by_cases h10 : c = 10
        · simp [normSkip, crlfToLf, h10]
        · simp [normSkip, crlfToLf, h13, h10]
    | cons b rest =>
      have hrest : rest.length ≤ n := by simpa using hl
      obtain ⟨ih1, ih2⟩ := ih rest hrest
      have hfalse : normSkip false (b :: rest) = crlfToLf (b :: rest) := by
        by_cases h13 : b = 13
        · subst h13
          cases rest with
          | nil => simp [normSkip, crlfToLf]
          | cons c rest2 =>
            have hc := (ih rest2 (by simp at hrest; omega)).2 c
            have h1 : normSkip false (13 :: c :: rest2) = 10 :: normSkip true (c :: rest2) := by
              rw [normSkip]; simp
            rw [h1, hc]
            simp only [crlfToLf, if_true]
            by_cases h10 : c = 10
            · simp [h10]
            · simp [h10]
        · cases rest with
          | nil =>
            by_cases h10 : b = 10
            · simp [normSkip, crlfToLf, h10]
            · simp [normSkip, crlfToLf, h13, h10]
          | cons c rest2 =>
            by_cases h10 : b = 10
            · simp [normSkip, crlfToLf, h10, ← ih1]
            · simp [normSkip, crlfToLf, h13, h10, ← ih1]
      refine ⟨hfalse, ?_⟩
      intro c
      by_cases h13 : c = 13
      · subst h13
        have h1 : normSkip true (13 :: b :: rest) = 10 :: normSkip true (b :: rest) := by
          simp [normSkip]
        rw [h1, ih2 b]
        by_cases h10 : b = 10
        · simp [crlfToLf, h10]
        · simp [crlfToLf, h10]
      · by_cases h10 : c = 10
        · subst h10
          have h1 : normSkip true (10 :: b :: rest) = normSkip false (b :: rest) := by
            simp [normSkip]
          rw [h1, hfalse]
          simp
        · have h1 : normSkip true (c :: b :: rest) = c :: normSkip false (b :: rest) := by
            simp [normSkip, h13, h10]
          rw [h1, hfalse]
          simp [crlfToLf, h13, h10]

theorem normSkip_false_eq (l : List Nat) : normSkip false l = crlfToLf l :=
  (normSkip_crlfToLf l.length l (le_refl _)).1

theorem consumedBytes_self (script : Nat → DevEvent) (a : Nat) :
    consumedBytes script a a = [] := by
  simp [consumedBytes]

theorem consumedBytes_byte (script : Nat → DevEvent) (a b c : Nat) (hab : a < b)
    (h : script a = DevEvent.byte c) :
    consumedBytes script a b = c :: consumedBytes script (a + 1) b := by
  have h1 : b - a = (b - (a + 1)) + 1 := by omega
  unfold consumedBytes
  rw [h1, List.range'_succ]
  simp [h]

theorem consumedBytes_fail (script : Nat → DevEvent) (a b e : Nat) (hab : a < b)
    (h : script a = DevEvent.fail e) :
    consumedBytes script a b = consumedBytes script (a + 1) b := by
  have h1 : b - a = (b - (a + 1)) + 1 := by omega
  unfold consumedBytes
  rw [h1, List.range'_succ]
  simp [h]

theorem consumedBytes_append (script : Nat → DevEvent) (a b c : Nat) (hab : a ≤ b)
    (hbc : b ≤ c) :
    consumedBytes script a c = consumedBytes script a b ++ consumedBytes script b c := by
  obtain ⟨m, rfl⟩ := Nat.exists_eq_add_of_le hab
  obtain ⟨n, rfl⟩ := Nat.exists_eq_add_of_le hbc
  have h1 : a + m + n - a = n + m := by omega
  have h2 : a + m - a = m := by omega
  have h3 : a + m + n - (a + m) = n := by omega
  unfold consumedBytes
  rw [← List.filterMap_append, h1, h2, h3, List.range'_append_1]

theorem bufferPrefix_update_ge (mem : Int → Nat) (n : Nat) (off : Int) (b : Nat)
    (h : (n : Int) ≤ off) :
    bufferPrefix (Function.update mem off b) n = bufferPrefix mem n := by
  unfold bufferPrefix
  apply List.map_congr_left
  intro k hk
  have hk2 : k < n := List.mem_range.mp hk
  have : (k : Int) ≠ off := by omega
  simp [Function.update_apply, this]

theorem bufferPrefix_succ (mem : Int → Nat) (n : Nat) :
    bufferPrefix mem (n + 1) = bufferPrefix mem n ++ [mem (n : Int)] := by
  simp [bufferPrefix, List.range_succ]

theorem bufferPrefix_update_succ (mem : Int → Nat) (n : Nat) (b : Nat) :
    bufferPrefix (Function.update mem (n : Int) b) (n + 1) = bufferPrefix mem n ++ [b] := by
  rw [bufferPrefix_succ, bufferPrefix_update_ge _ _ _ _ (le_refl _)]
  simp

theorem echoWrite_reads (echo : Bool) (d : Device) (bs : List Nat) :
    (echoWrite echo d bs).reads = d.reads := by
  cases echo <;> rfl

theorem echoWrite_readScript (echo : Bool) (d : Device) (bs : List Nat) :
    (echoWrite echo d bs).readScript = d.readScript := by
  cases echo <;> rfl

theorem incSize_decSize (i : Nat) (h : i < WORD) : incSize (decSize i) = i := by
  unfold incSize decSize
  unfold WORD at *
  omega

theorem incSize_of_lt (i : Nat) (h : i + 1 < WORD) : incSize i = i + 1 := by
  unfold incSize
  exact Nat.mod_eq_of_lt h

theorem Device.afterRead_reads (d : Device) : d.afterRead.reads = d.reads + 1 := rfl

theorem Device.afterRead_readScript (d : Device) : d.afterRead.readScript = d.readScript := rfl

theorem normSkip_nil (skip : Bool) : normSkip skip [] = [] := by
  cases skip <;> rfl

theorem skipAfter_nil (skip : Bool) : skipAfter skip [] = skip := by
  cases skip <;> rfl

theorem readLoop_text (len : Nat) (hlen : len ≤ SSIZE_MAX) :
    ∀ (fuel : Nat) (td : TerminalDevice) (mem : Int → Nat) (i : Nat),
      i ≤ len → (len - i) + (if td.skipNewline then 1 else 0) ≤ fuel →
      ∃ r, readLoop len fuel td mem i (i : Int) = some r
        ∧ r.td.device.readScript = td.device.readScript
        ∧ td.device.reads ≤ r.td.device.reads
        ∧ r.td.binary = td.binary
        ∧ r.data = bufferPrefix mem i ++ normSkip td.skipNewline
            (consumedBytes td.device.readScript td.device.reads r.td.device.reads)
        ∧ r.td.skipNewline = skipAfter td.skipNewline
            (consumedBytes td.device.readScript td.device.reads r.td.device.reads) := by
  have hlen2 : len ≤ 2147483647 := hlen
  intro fuel
  induction fuel with
  | zero =>
    intro td mem i hi hfuel
    have hnot : ¬ i < len := by omega
    have hil : i = len := by omega
    refine ⟨_, readLoop_exit len 0 td mem i _ hnot, rfl, le_refl _, rfl, ?_, ?_⟩
    · simp [ReadResult.data, toSsize_of_le len hlen, consumedBytes_self, normSkip_nil, hil]
    · simp [consumedBytes_self, skipAfter_nil]
  | succ fuel ih =>
    intro td mem i hi hfuel
    by_cases hlt : i < len
    · have hi1 : i + 1 ≤ SSIZE_MAX := by show i + 1 ≤ 2147483647; omega
      cases hev : td.device.readScript td.device.reads with
      | fail e =>
        refine ⟨_, readLoop_fail len fuel td mem i _ e hlt hev, rfl, ?_, rfl, ?_, ?_⟩
        · simp [Device.afterRead_reads]
        · simp only [ReadResult.data, Device.afterRead_reads]
          rw [consumedBytes_fail _ _ _ e (Nat.lt_succ_self _) hev, consumedBytes_self,
            normSkip_nil, List.append_nil]
          by_cases h0 : i = 0
          · subst h0
            simp [bufferPrefix]
          · have : ¬ ((i : Int) = 0) := by omega
            simp [this]
        · simp only [Device.afterRead_reads]
          rw [consumedBytes_fail _ _ _ e (Nat.lt_succ_self _) hev, consumedBytes_self,
            skipAfter_nil]
      | byte b =>
        by_cases h13 : b = 13
        · subst h13
          refine ⟨_, readLoop_cr len fuel td mem i _ hlt hev, ?_, ?_, rfl, ?_, ?_⟩
          · simp [echoWrite_readScript, Device.afterRead_readScript]
          · simp [echoWrite_reads, Device.afterRead_reads]
          · simp only [ReadResult.data, echoWrite_reads, Device.afterRead_reads]
            rw [consumedBytes_byte _ _ _ 13 (Nat.lt_succ_self _) hev, consumedBytes_self,
              toSsize_of_le _ hi1, Int.toNat_ofNat, Function.update_idem,
              bufferPrefix_update_succ]
            simp [normSkip]
          · simp only [echoWrite_reads, Device.afterRead_reads]
            rw [consumedBytes_byte _ _ _ 13 (Nat.lt_succ_self _) hev, consumedBytes_self]
            simp [skipAfter]
        · by_cases h10 : b = 10
          · subst h10
            cases hskip : td.skipNewline with
            | true =>
              have hiW : i < WORD := by show i < 4294967296; omega
              have hstep := readLoop_lf_skip len fuel td mem i (i : Int) hlt hev hskip
              rw [incSize_decSize i hiW, Int.sub_add_cancel] at hstep
              obtain ⟨r, hr, h1, h2, h3, h4, h5⟩ :=
                ih { td with device := td.device.afterRead, skipNewline := false }
                  (Function.update mem (i : Int) 10) i hi
                  (by simp [hskip] at hfuel ⊢; omega)
              refine ⟨r, by rw [hstep]; exact hr, ?_, ?_, h3, ?_, ?_⟩
              · rw [h1]; rfl
              · simp only [Device.afterRead_reads] at h2
                omega
              · simp only [Device.afterRead_reads, Device.afterRead_readScript] at h2 h4
                rw [h4, bufferPrefix_update_ge _ _ _ _ (le_refl _),
                  consumedBytes_byte _ td.device.reads _ 10 (by omega) hev]
                simp [normSkip]
              · simp only [Device.afterRead_reads, Device.afterRead_readScript] at h2 h5
                rw [h5, consumedBytes_byte _ td.device.reads _ 10 (by omega) hev]
                simp [skipAfter]
            | false =>
              refine ⟨_, readLoop_lf len fuel td mem i _ hlt hev hskip, ?_, ?_, rfl, ?_, ?_⟩
              · simp [echoWrite_readScript, Device.afterRead_readScript]
              · simp [echoWrite_reads, Device.afterRead_reads]
              · simp only [ReadResult.data, echoWrite_reads, Device.afterRead_reads]
                rw [consumedBytes_byte _ _ _ 10 (Nat.lt_succ_self _) hev, consumedBytes_self,
                  toSsize_of_le _ hi1, Int.toNat_ofNat, bufferPrefix_update_succ]
                simp [normSkip]
              · simp only [echoWrite_reads, Device.afterRead_reads]
                rw [consumedBytes_byte _ _ _ 10 (Nat.lt_succ_self _) hev, consumedBytes_self]
                simp [skipAfter, hskip]
          · have hiW : i + 1 < WORD := by show i + 1 < 4294967296; omega
            have hstep := readLoop_other len fuel td mem i (i : Int) b hlt hev h13 h10
            rw [incSize_of_lt i hiW] at hstep
            obtain ⟨r, hr, h1, h2, h3, h4, h5⟩ :=
              ih { td with device := echoWrite td.echo td.device.afterRead [b],
                           skipNewline := false }
                (Function.update mem (i : Int) b) (i + 1) hlt
                (by simp only [Bool.false_eq_true, if_false]; split at hfuel <;> omega)
            have hcast : ((i + 1 : Nat) : Int) = (i : Int) + 1 := by push_cast; rfl
            rw [hcast] at hr
            refine ⟨r, by rw [hstep]; exact hr, ?_, ?_, h3, ?_, ?_⟩
            · rw [h1]; simp [echoWrite_readScript, Device.afterRead_readScript]
            · simp only [echoWrite_reads, Device.afterRead_reads] at h2
              omega
            · simp only [echoWrite_reads, echoWrite_readScript, Device.afterRead_reads,
                Device.afterRead_readScript] at h2 h4
              rw [h4, bufferPrefix_update_succ,
                consumedBytes_byte _ td.device.reads _ b (by omega) hev]
              simp [normSkip, h13, h10]
            · simp only [echoWrite_reads, echoWrite_readScript, Device.afterRead_reads,
                Device.afterRead_readScript] at h2 h5
              rw [h5, consumedBytes_byte _ td.device.reads _ b (by omega) hev]
              simp [skipAfter, h13]
    · have hil : i = len := by omega
      refine ⟨_, readLoop_exit len _ td mem i _ hlt, rfl, le_refl _, rfl, ?_, ?_⟩
      · simp [ReadResult.data, toSsize_of_le len hlen, consumedBytes_self, normSkip_nil, hil]
      · simp [consumedBytes_self, skipAfter_nil]

theorem TerminalDevice.read_text (td : TerminalDevice) (mem : Int → Nat) (len : Nat)
    (hbin : td.binary = false) (hlen : len ≤ SSIZE_MAX) :
    ∃ r, td.read mem len = some r
      ∧ r.td.device.readScript = td.device.readScript
      ∧ td.device.reads ≤ r.td.device.reads
      ∧ r.td.binary = false
      ∧ r.data = normSkip td.skipNewline
          (consumedBytes td.device.readScript td.device.reads r.td.device.reads)
      ∧ r.td.skipNewline = skipAfter td.skipNewline
          (consumedBytes td.device.readScript td.device.reads r.td.device.reads) := by
  obtain ⟨r, hr, h1, h2, h3, h4, h5⟩ :=
    readLoop_text len hlen (len + 1) td mem 0 (Nat.zero_le _) (by split <;> omega)
  refine ⟨r, ?_, h1, h2, by rw [h3, hbin], ?_, h5⟩
  · simp only [TerminalDevice.read, hbin, Bool.false_eq_true, if_false]
    exact hr
  · rw [h4]
    simp [bufferPrefix]

theorem readCalls_text : ∀ (calls : List ((Int → Nat) × Nat)) (td : TerminalDevice),
    td.binary = false → (∀ c ∈ calls, c.2 ≤ SSIZE_MAX) →
    ∃ out, readCalls td calls = some out
      ∧ out.2.device.readScript = td.device.readScript
      ∧ td.device.reads ≤ out.2.device.reads
      ∧ out.1.flatten = normSkip td.skipNewline
          (consumedBytes td.device.readScript td.device.reads out.2.device.reads) := by
  intro calls
  induction calls with
  | nil =>
    intro td _ _
    exact ⟨([], td), rfl, rfl, le_refl _, by simp [consumedBytes_self, normSkip_nil]⟩
  | cons c cs ih =>
    intro td hbin hlens
    obtain ⟨r, hr, h1, h2, h3, h4, h5⟩ :=
      TerminalDevice.read_text td c.1 c.2 hbin (hlens c (List.mem_cons_self _ _))
    obtain ⟨out, ho, g1, g2, g3⟩ :=
      ih r.td h3 (fun x hx => hlens x (List.mem_cons_of_mem _ hx))
    refine ⟨(r.data :: out.1, out.2), ?_, ?_, ?_, ?_⟩
    · simp only [readCalls, hr, ho]
    · exact g1.trans h1
    · exact le_trans h2 g2
    · simp only [List.flatten_cons]
      rw [g3, h4, h5, h1,
        consumedBytes_append _ _ _ _ h2 g2, normSkip_append]

/-- C8 (amended): in text mode, starting with `skipNewline = false`, for
every device stream and every sequence of `read` calls whose buffer lengths
are at most `SSIZE_MAX`, all calls return and the concatenation of the data
they hand back is the sequence of bytes consumed from the device with every
carriage return followed by a line feed replaced by one line feed and every
other carriage return replaced by a line feed, also when the two bytes are
seen by different calls.  Device reads that fail deliver no byte and change
nothing in this; the statement covers the streams whose reads all succeed. -/
theorem TerminalDevice_read_line_endings (td : TerminalDevice)
    (calls : List ((Int → Nat) × Nat))
    (hbin : td.binary = false) (hskip : td.skipNewline = false)
    (hlens : ∀ c ∈ calls, c.2 ≤ SSIZE_MAX) :
    ∃ out, readCalls td calls = some out
      ∧ out.1.flatten
          = crlfToLf (consumedBytes td.device.readScript td.device.reads out.2.device.reads) := by
  obtain ⟨out, ho, _, _, g3⟩ := readCalls_text calls td hbin hlens
  exact ⟨out, ho, by rw [g3, hskip, normSkip_false_eq]⟩

theorem readLoop_plain (len : Nat) (hlen : len < WORD) (b : Nat) (h13 : b ≠ 13) (h10 : b ≠ 10) :
    ∀ (fuel : Nat) (td : TerminalDevice) (mem : Int → Nat) (i : Nat) (buffer : Int),
      i ≤ len → len - i ≤ fuel → (∀ k, td.device.readScript k = DevEvent.byte b) →
      ∃ r, readLoop len fuel td mem i buffer = some r
        ∧ r.ret = toSsize len
        ∧ r.td.device.reads = td.device.reads + (len - i)
        ∧ r.td.device.readScript = td.device.readScript := by
  intro fuel
  induction fuel with
  | zero =>
    intro td mem i buffer hi hfuel _
    have hnot : ¬ i < len := by omega
    exact ⟨_, readLoop_exit len 0 td mem i buffer hnot, rfl, by simp; omega, rfl⟩
  | succ fuel ih =>
    intro td mem i buffer hi hfuel hscript
    by_cases hlt : i < len
    · have hstep := readLoop_other len fuel td mem i buffer b hlt (hscript _) h13 h10
      rw [incSize_of_lt i (by omega)] at hstep
      obtain ⟨r, hr, h1, h2, h3⟩ :=
        ih { td with device := echoWrite td.echo td.device.afterRead [b],
                     skipNewline := false }
          (Function.update mem buffer b) (i + 1) (buffer + 1) hlt (by omega)
          (by intro k; simp only [echoWrite_readScript, Device.afterRead_readScript]
              exact hscript k)
      refine ⟨r, by rw [hstep]; exact hr, h1, ?_, ?_⟩
      · rw [h2]
        simp only [echoWrite_reads, Device.afterRead_reads]
        omega
      · rw [h3]
        simp only [echoWrite_readScript, Device.afterRead_readScript]
    · exact ⟨_, readLoop_exit len _ td mem i buffer hlt, rfl, by simp; omega, rfl⟩

theorem crlfToLf_cons_ne_nil (b : Nat) (l : List Nat) : crlfToLf (b :: l) ≠ [] := by
  cases l with
  | nil => simp [crlfToLf]
  | cons c rest =>
    simp only [crlfToLf]
    split
    · split <;> simp
    · simp

theorem TerminalDevice.write_accepting_ret (td : TerminalDevice) (data : Nat → Nat) (len : Nat)
    (hbin : td.binary = false) (hacc : ∀ k, 0 < td.device.writeScript k) :
    (td.write data len).1 = toSsize len := by
  simp only [TerminalDevice.write, hbin, Bool.false_eq_true, if_false]
  exact (writeLoop_accepting data len len 0 0 td.device (le_refl _) hacc).1

theorem TerminalDevice.read_plain (td : TerminalDevice) (mem : Int → Nat) (len b : Nat)
    (hbin : td.binary = false) (hlen : len < WORD) (h13 : b ≠ 13) (h10 : b ≠ 10)
    (hscript : ∀ k, td.device.readScript k = DevEvent.byte b) :
    ∃ r, td.read mem len = some r
      ∧ r.ret = toSsize len
      ∧ r.td.device.reads = td.device.reads + len
      ∧ r.td.device.readScript = td.device.readScript := by
  obtain ⟨r, hr, h1, h2, h3⟩ := readLoop_plain len hlen b h13 h10 (len + 1) td mem 0 0
    (Nat.zero_le _) (by omega) hscript
  refine ⟨r, ?_, h1, by rw [h2]; rfl, h3⟩
  simp only [TerminalDevice.read, hbin, Bool.false_eq_true, if_false]
  exact hr

theorem readCalls_single (td : TerminalDevice) (mem : Int → Nat) (len : Nat) (r : ReadResult)
    (h : td.read mem len = some r) :
    readCalls td [(mem, len)] = some ([r.data], r.td) := by
  simp [readCalls, h]

/-! ## Properties: line-ending translation on output and on input -/

/-- C7 (amended): in text mode, on a device every write of which returns a
positive count, for every byte sequence `data` of length `len` at most
`SSIZE_MAX`, `TerminalDevice::write` passes to the device, in order, exactly
`data` with every line feed replaced by a carriage return and a line feed,
every other byte unchanged, and returns `len`. -/
theorem TerminalDevice_write_text (td : TerminalDevice) (data : Nat → Nat) (len : Nat)
    (hbin : td.binary = false) (hacc : ∀ k, 0 < td.device.writeScript k)
    (hlen : len ≤ SSIZE_MAX) :
    (td.write data len).1 = (len : Int)
    ∧ (td.write data len).2.device.written.flatten
        = td.device.written.flatten ++ lfToCrlf (chunk data 0 len) := by
  obtain ⟨h1, h2, _⟩ := writeLoop_accepting data len len 0 0 td.device (le_refl _) hacc
  simp only [TerminalDevice.write, hbin, Bool.false_eq_true, if_false]
  refine ⟨by rw [h1, toSsize_of_le len hlen], ?_⟩
  rw [h2]
  simp [chunk_self]

theorem TerminalDevice_write_text_witness :
    (TerminalDevice.new (Device.ofInput [] 1)).binary = false
    ∧ 3 ≤ SSIZE_MAX
    ∧ ((TerminalDevice.new (Device.ofInput [] 1)).write (bufferOf [97, 10, 98]) 3).1 = 3
    ∧ ((TerminalDevice.new (Device.ofInput [] 1)).write
          (bufferOf [97, 10, 98]) 3).2.device.written.flatten = [97, 13, 10, 98] := by
  have h := TerminalDevice_write_text (TerminalDevice.new (Device.ofInput [] 1))
    (bufferOf [97, 10, 98]) 3 rfl (fun _ => Int.one_pos) (by decide)
  refine ⟨rfl, by decide, h.1, ?_⟩
  rw [h.2]
  rfl

/-- C7, as stated, fails for `len = SSIZE_MAX + 1`: on a buffer of
2147483648 line feeds and a device whose writes all return 2, `write` returns
the negative value `-2147483648`, not `len`. -/
theorem TerminalDevice_write_len_not_representable :
    (TerminalDevice.new (Device.constant 97 2)).binary = false
    ∧ (∀ k, 0 < (TerminalDevice.new (Device.constant 97 2)).device.writeScript k)
    ∧ ((TerminalDevice.new (Device.constant 97 2)).write (fun _ => 10) 2147483648).1
        = -2147483648
    ∧ ((TerminalDevice.new (Device.constant 97 2)).write (fun _ => 10) 2147483648).1
        ≠ ((2147483648 : Nat) : Int) := by
  have hacc : ∀ k, 0 < (TerminalDevice.new (Device.constant 97 2)).device.writeScript k :=
    fun _ => (by decide : (0 : Int) < 2)
  have hs : toSsize 2147483648 = -2147483648 := by decide
  have hw := (TerminalDevice.write_accepting_ret (TerminalDevice.new (Device.constant 97 2))
    (fun _ => 10) 2147483648 rfl hacc).trans hs
  exact ⟨rfl, hacc, hw, fun heq => absurd (hw.symm.trans heq) (by decide)⟩

theorem TerminalDevice_read_line_endings_witness :
    (TerminalDevice.new (Device.ofInput [97, 13, 10, 98, 10, 99] 1)).binary = false
    ∧ (TerminalDevice.new (Device.ofInput [97, 13, 10, 98, 10, 99] 1)).skipNewline = false
    ∧ (∀ c ∈ [((fun _ => 0 : Int → Nat), 4), (fun _ => 0, 4), (fun _ => 0, 4)],
        c.2 ≤ SSIZE_MAX)
    ∧ (∃ out, readCalls (TerminalDevice.new (Device.ofInput [97, 13, 10, 98, 10, 99] 1))
          [(fun _ => 0, 4), (fun _ => 0, 4), (fun _ => 0, 4)] = some out
        ∧ out.1.flatten = crlfToLf (consumedBytes
            (TerminalDevice.new (Device.ofInput [97, 13, 10, 98, 10, 99] 1)).device.readScript
            (TerminalDevice.new (Device.ofInput [97, 13, 10, 98, 10, 99] 1)).device.reads
            out.2.device.reads))
    ∧ (readCalls (TerminalDevice.new (Device.ofInput [97, 13, 10, 98, 10, 99] 1))
          [(fun _ => 0, 4), (fun _ => 0, 4), (fun _ => 0, 4)]).map (fun out => out.1)
        = some [[97, 10], [98, 10], [99]] := by
  have hl : ∀ c ∈ [((fun _ => 0 : Int → Nat), 4), (fun _ => 0, 4), (fun _ => 0, 4)],
      c.2 ≤ SSIZE_MAX := by
    intro c hc
    simp only [List.mem_cons, List.mem_singleton, List.not_mem_nil, or_false] at hc
    rcases hc with h | h | h <;> rw [h] <;> decide
  exact ⟨rfl, rfl, hl,
    TerminalDevice_read_line_endings _ _ rfl rfl hl, by decide⟩

/-- C8, as stated, fails for a buffer length of `SSIZE_MAX + 1`: on a device
delivering the letter `a` for ever, one `read` of 2147483648 bytes consumes
2147483648 bytes and returns `-2147483648`, so it hands back no data. -/
theorem TerminalDevice_read_len_not_representable :
    ∃ out, readCalls (TerminalDevice.new (Device.constant 97 1))
          [(fun _ => 0, 2147483648)] = some out
      ∧ out.2.device.reads = 2147483648
      ∧ out.1.flatten = []
      ∧ out.1.flatten ≠ crlfToLf (consumedBytes
          (TerminalDevice.new (Device.constant 97 1)).device.readScript
          (TerminalDevice.new (Device.constant 97 1)).device.reads out.2.device.reads) := by
  obtain ⟨r, hread, h1, h2, _⟩ := TerminalDevice.read_plain
    (TerminalDevice.new (Device.constant 97 1)) (fun _ => 0) 2147483648 97 rfl
    (by decide) (by decide) (by decide) (fun _ => rfl)
  have hs : toSsize 2147483648 = -2147483648 := by decide
  have hdata : r.data = [] := by
    simp only [ReadResult.data, h1, hs]
    rfl
  have hreads : r.td.device.reads = 2147483648 := by
    rw [h2]
    rfl
  refine ⟨([r.data], r.td), readCalls_single _ _ _ _ hread, hreads, ?_, ?_⟩
  · simp [hdata]
  · simp only [List.flatten_cons, List.flatten_nil, List.append_nil, hdata, hreads]
    rw [consumedBytes_byte (TerminalDevice.new (Device.constant 97 1)).device.readScript
      (TerminalDevice.new (Device.constant 97 1)).device.reads 2147483648 97 (by decide) rfl]
    exact (crlfToLf_cons_ne_nil _ _).symm

/-! ## Properties: `lseek` of `NullFile` and `ZeroFile` -/

/-- C11: with the positive, distinct error numbers `EBADF` and `EINVAL` of
`<errno.h>`, for both `NullFile::lseek` and `ZeroFile::lseek` and every
`pos`: the result is `-EBADF` if and only if `whence` is `SEEK_SET`,
`SEEK_CUR` or `SEEK_END`, it is `-EINVAL` for every other `whence`, it does
not depend on `pos` and it is negative. -/
theorem lseek_null_zero (EBADF EINVAL SEEK_SET SEEK_CUR SEEK_END : Int)
    (hB : 0 < EBADF) (hI : 0 < EINVAL) (hne : EBADF ≠ EINVAL) (pos whence : Int) :
    (NullFile.lseek EBADF EINVAL SEEK_SET SEEK_CUR SEEK_END pos whence = -EBADF
        ↔ whence = SEEK_SET ∨ whence = SEEK_CUR ∨ whence = SEEK_END)
    ∧ (¬ (whence = SEEK_SET ∨ whence = SEEK_CUR ∨ whence = SEEK_END) →
        NullFile.lseek EBADF EINVAL SEEK_SET SEEK_CUR SEEK_END pos whence = -EINVAL)
    ∧ (∀ pos2 : Int, NullFile.lseek EBADF EINVAL SEEK_SET SEEK_CUR SEEK_END pos2 whence
        = NullFile.lseek EBADF EINVAL SEEK_SET SEEK_CUR SEEK_END pos whence)
    ∧ NullFile.lseek EBADF EINVAL SEEK_SET SEEK_CUR SEEK_END pos whence < 0
    ∧ (ZeroFile.lseek EBADF EINVAL SEEK_SET SEEK_CUR SEEK_END pos whence = -EBADF
        ↔ whence = SEEK_SET ∨ whence = SEEK_CUR ∨ whence = SEEK_END)
    ∧ (¬ (whence = SEEK_SET ∨ whence = SEEK_CUR ∨ whence = SEEK_END) →
        ZeroFile.lseek EBADF EINVAL SEEK_SET SEEK_CUR SEEK_END pos whence = -EINVAL)
    ∧ (∀ pos2 : Int, ZeroFile.lseek EBADF EINVAL SEEK_SET SEEK_CUR SEEK_END pos2 whence
        = ZeroFile.lseek EBADF EINVAL SEEK_SET SEEK_CUR SEEK_END pos whence)
    ∧ ZeroFile.lseek EBADF EINVAL SEEK_SET SEEK_CUR SEEK_END pos whence < 0 := by
  unfold NullFile.lseek ZeroFile.lseek
  by_cases h : whence = SEEK_SET ∨ whence = SEEK_CUR ∨ whence = SEEK_END
  · simp only [h, if_true, true_iff, not_true_eq_false, false_implies, implies_true, true_and,
      and_true]
    omega
  · have hne2 : ¬ (-EINVAL = -EBADF) := by omega
    simp only [h, if_false, hne2, not_false_eq_true, true_implies, implies_true, true_and,
      and_true, iff_self]
    omega

theorem lseek_null_zero_witness :
    (0 : Int) < 9 ∧ (0 : Int) < 22 ∧ (9 : Int) ≠ 22
    ∧ NullFile.lseek 9 22 0 1 2 100 1 = -9
    ∧ NullFile.lseek 9 22 0 1 2 100 7 = -22
    ∧ ZeroFile.lseek 9 22 0 1 2 100 2 = -9
    ∧ ZeroFile.lseek 9 22 0 1 2 100 (-1) = -22 :=
  ⟨by decide, by decide, by decide,
    (lseek_null_zero 9 22 0 1 2 (by decide) (by decide) (by decide) 100 1).1.mpr (by decide),
    (lseek_null_zero 9 22 0 1 2 (by decide) (by decide) (by decide) 100 7).2.1 (by decide),
    (lseek_null_zero 9 22 0 1 2 (by decide) (by decide) (by decide) 100 2).2.2.2.2.1.mpr
      (by decide),
    (lseek_null_zero 9 22 0 1 2 (by decide) (by decide) (by decide) 100 (-1)).2.2.2.2.2.1
      (by decide)⟩

/-! ## Properties: `TerminalDevice::write` when a device write fails -/

theorem writeLoop_skip_plain (data : Nat → Nat) (len : Nat) :
    ∀ (m n i chunkstart : Nat) (dev : Device),
      (∀ j, i ≤ j → j < i + m → data j ≠ 10) →
      writeLoop data len (m + n) i chunkstart dev
        = writeLoop data len n (i + m) chunkstart dev := by
  intro m
  induction m with
  | zero =>
    intro n i cs dev _
    simp
  | succ m ih =>
    intro n i cs dev hplain
    have h1 : m + 1 + n = (m + n) + 1 := by omega
    have h2 : i + (m + 1) = (i + 1) + m := by omega
    rw [h1, h2, writeLoop, if_neg (hplain i (le_refl _) (by omega))]
    exact ih n (i + 1) cs dev (fun j hj1 hj2 => hplain j (by omega) (by omega))

theorem TerminalDevice.write_crlf_failure (td : TerminalDevice) (data : Nat → Nat)
    (n : Nat) (r : Int) (hbin : td.binary = false) (hn : 1 ≤ n)
    (hplain : ∀ j, j < n → data j ≠ 10) (hlf : data n = 10)
    (hchunk : td.device.writeScript td.device.written.length = (n : Int))
    (hcrlf : td.device.writeScript (td.device.written.length + 1) = r) (hr : r ≤ 0) :
    (td.write data (n + 1)).1 = r
    ∧ (td.write data (n + 1)).2.device.written
        = td.device.written ++ [chunk data 0 n, [13, 10]] := by
  have hskip := writeLoop_skip_plain data (n + 1) n 1 0 0 td.device
    (fun j _ hj => hplain j (by omega))
  have hw : ¬ (td.device.write (chunk data 0 n)).1 ≤ 0 := by
    rw [Device.write_fst, hchunk]
    omega
  have hw2 : ((td.device.write (chunk data 0 n)).2.write [13, 10]).1 ≤ 0 := by
    rw [Device.write_fst, Device.write_written, Device.write_writeScript]
    simp only [List.length_append, List.length_singleton]
    rw [hcrlf]
    exact hr
  simp only [TerminalDevice.write, hbin, Bool.false_eq_true, if_false]
  rw [hskip]
  simp only [Nat.zero_add, writeLoop, hlf, if_true, Nat.sub_zero, hw, if_false, hw2]
  have hpos : 0 < n := by omega
  have hw3 : ((td.device.write (chunk data 0 n)).2.write [13, 10]).1 = r := by
    rw [Device.write_fst, Device.write_written, Device.write_writeScript]
    simp only [List.length_append, List.length_singleton]
    exact hcrlf
  simp [hpos, Device.write_written, hw3]

/-- C12, at the failing input: on the two bytes `a`, line feed, with a
device that takes the chunk `a` whole (its write returns 1) and then fails
the write of carriage return, line feed with -1, `write` returns -1 although
one input byte was delivered; on `x`, line feed, `a`, `b`, line feed, with the
first three device writes complete and the fourth failing, it returns 2
although four input bytes were delivered. -/
theorem TerminalDevice_write_crlf_failure_after_chunk :
    ((TerminalDevice.new (Device.scripted [] [1, -1] 1)).write (bufferOf [97, 10]) 2).1 = -1
    ∧ ((TerminalDevice.new (Device.scripted [] [1, -1] 1)).write
          (bufferOf [97, 10]) 2).2.device.written = [[97], [13, 10]]
    ∧ ((TerminalDevice.new (Device.scripted [] [1, 2, 2, -1] 1)).write
          (bufferOf [120, 10, 97, 98, 10]) 5).1 = 2
    ∧ ((TerminalDevice.new (Device.scripted [] [1, 2, 2, -1] 1)).write
          (bufferOf [120, 10, 97, 98, 10]) 5).2.device.written
        = [[120], [13, 10], [97, 98], [13, 10]] := by
  have h := TerminalDevice.write_crlf_failure
    (TerminalDevice.new (Device.scripted [] [1, -1] 1)) (bufferOf [97, 10]) 1 (-1) rfl
    (le_refl _) (fun j hj => by
      have hj0 : j = 0 := by omega
      subst hj0
      decide) rfl rfl rfl (by decide)
  exact ⟨h.1, h.2, by decide, by decide⟩

/-! ## Properties: bounds and termination of the loop of `TerminalDevice::read` -/

theorem readLoopTrace_fst (len : Nat) :
    ∀ (fuel : Nat) (td : TerminalDevice) (mem : Int → Nat) (i : Nat) (buffer : Int),
      (readLoopTrace len fuel td mem i buffer).1 = readLoop len fuel td mem i buffer := by
  intro fuel
  induction fuel with
  | zero =>
    intro td mem i buffer
    unfold readLoopTrace readLoop
    by_cases h : i < len
    · simp [h]
    · simp [h]
  | succ fuel ih =>
    intro td mem i buffer
    rw [readLoopTrace, readLoop]
    by_cases h : i < len
    · simp only [h, if_true]
      split
      · rfl
      · split
        · rfl
        · split
          · split
            · exact ih _ _ _ _
            · rfl
          · exact ih _ _ _ _
    · simp [h]

theorem readLoopTrace_exit (len fuel : Nat) (td : TerminalDevice) (mem : Int → Nat) (i : Nat)
    (buffer : Int) (h : ¬ i < len) :
    readLoopTrace len fuel td mem i buffer = (some ⟨toSsize len, td, mem⟩, []) := by
  unfold readLoopTrace
  rw [if_neg h]

theorem readLoopTrace_fail (len fuel : Nat) (td : TerminalDevice) (mem : Int → Nat) (i : Nat)
    (buffer : Int) (e : Nat) (h : i < len)
    (hev : td.device.readScript td.device.reads = DevEvent.fail e) :
    readLoopTrace len (fuel + 1) td mem i buffer
      = (some ⟨if buffer = 0 then -(e : Int) else buffer,
            { td with device := td.device.afterRead }, mem⟩,
          [⟨i, buffer, false, i, none⟩]) := by
  rw [readLoopTrace, if_pos h]
  simp [Device.read_fail _ _ _ _ hev]

theorem readLoopTrace_cr (len fuel : Nat) (td : TerminalDevice) (mem : Int → Nat) (i : Nat)
    (buffer : Int) (h : i < len)
    (hev : td.device.readScript td.device.reads = DevEvent.byte 13) :
    readLoopTrace len (fuel + 1) td mem i buffer
      = (some ⟨toSsize (i + 1),
            { td with device := echoWrite td.echo td.device.afterRead [13, 10],
                      skipNewline := true },
            Function.update (Function.update mem buffer 13) buffer 10⟩,
          [⟨i, buffer, false, i, none⟩]) := by
  rw [readLoopTrace, if_pos h]
  simp [Device.read_byte _ _ _ _ hev]

theorem readLoopTrace_lf_skip (len fuel : Nat) (td : TerminalDevice) (mem : Int → Nat)
    (i : Nat) (buffer : Int) (h : i < len)
    (hev : td.device.readScript td.device.reads = DevEvent.byte 10)
    (hskip : td.skipNewline = true) :
    readLoopTrace len (fuel + 1) td mem i buffer
      = ((readLoopTrace len fuel
            { td with device := td.device.afterRead, skipNewline := false }
            (Function.update mem buffer 10) (incSize (decSize i)) (buffer - 1 + 1)).1,
          ⟨i, buffer, true, decSize i, some (incSize (decSize i), buffer - 1 + 1)⟩ ::
          (readLoopTrace len fuel
            { td with device := td.device.afterRead, skipNewline := false }
            (Function.update mem buffer 10) (incSize (decSize i)) (buffer - 1 + 1)).2) := by
  rw [readLoopTrace, if_pos h]
  simp [Device.read_byte _ _ _ _ hev, hskip]

theorem readLoopTrace_lf (len fuel : Nat) (td : TerminalDevice) (mem : Int → Nat) (i : Nat)
    (buffer : Int) (h : i < len)
    (hev : td.device.readScript td.device.reads = DevEvent.byte 10)
    (hskip : td.skipNewline = false) :
    readLoopTrace len (fuel + 1) td mem i buffer
      = (some ⟨toSsize (i + 1),
            { td with device := echoWrite td.echo td.device.afterRead [13, 10] },
            Function.update mem buffer 10⟩,
          [⟨i, buffer, false, i, none⟩]) := by
  rw [readLoopTrace, if_pos h]
  simp [Device.read_byte _ _ _ _ hev, hskip]

theorem readLoopTrace_other (len fuel : Nat) (td : TerminalDevice) (mem : Int → Nat) (i : Nat)
    (buffer : Int) (b : Nat) (h : i < len)
    (hev : td.device.readScript td.device.reads = DevEvent.byte b)
    (h13 : b ≠ 13) (h10 : b ≠ 10) :
    readLoopTrace len (fuel + 1) td mem i buffer
      = ((readLoopTrace len fuel
            { td with device := echoWrite td.echo td.device.afterRead [b],
                      skipNewline := false }
            (Function.update mem buffer b) (incSize i) (buffer + 1)).1,
          ⟨i, buffer, false, i, some (incSize i, buffer + 1)⟩ ::
          (readLoopTrace len fuel
            { td with device := echoWrite td.echo td.device.afterRead [b],
                      skipNewline := false }
            (Function.update mem buffer b) (incSize i) (buffer + 1)).2) := by
  rw [readLoopTrace, if_pos h]
  simp [Device.read_byte _ _ _ _ hev, h13, h10]

theorem toSsize_nonneg_le (x : Nat) (hx : x < WORD) (h : 0 ≤ toSsize x) :
    toSsize x ≤ (x : Int) := by
  unfold toSsize at *
  rw [Nat.mod_eq_of_lt hx] at *
  by_cases hs : x ≤ SSIZE_MAX
  · rw [if_pos hs]
  · rw [if_neg hs] at h
    unfold WORD at hx h
    omega

theorem decSize_eq (i : Nat) (h : i < WORD) :
    decSize i = if i = 0 then WORD - 1 else i - 1 := by
  unfold decSize
  unfold WORD at *
  split <;> omega

theorem update_outside (mem : Int → Nat) (len i : Nat) (b : Nat) (h : i < len) (k : Int)
    (hk : ¬ (0 ≤ k ∧ k < (len : Int))) : Function.update mem (i : Int) b k = mem k := by
  have : k ≠ (i : Int) := by
    intro hki
    apply hk
    omega
  simp [Function.update_apply, this]

theorem readLoopTrace_bounds (len : Nat) (hlen : len < WORD) :
    ∀ (fuel : Nat) (td : TerminalDevice) (mem : Int → Nat) (i : Nat),
      i ≤ len → (len - i) + (if td.skipNewline then 1 else 0) ≤ fuel →
      ∃ r, (readLoopTrace len fuel td mem i (i : Int)).1 = some r
        ∧ ((readLoopTrace len fuel td mem i (i : Int)).2.filter (fun s => s.discard)).length
            ≤ (if td.skipNewline then 1 else 0)
        ∧ (readLoopTrace len fuel td mem i (i : Int)).2.length
            ≤ (len - i) + (if td.skipNewline then 1 else 0)
        ∧ r.td.device.reads
            = td.device.reads + (readLoopTrace len fuel td mem i (i : Int)).2.length
        ∧ (∀ s ∈ (readLoopTrace len fuel td mem i (i : Int)).2,
            0 ≤ s.buffer ∧ s.buffer < (len : Int)
            ∧ (s.discard = true →
                s.iBody = (if s.i = 0 then WORD - 1 else s.i - 1)
                ∧ s.next = some (s.i, s.buffer)))
        ∧ (∀ k : Int, ¬ (0 ≤ k ∧ k < (len : Int)) → r.mem k = mem k)
        ∧ (0 ≤ r.ret → r.ret ≤ (len : Int)) := by
  intro fuel
  induction fuel with
  | zero =>
    intro td mem i hi hfuel
    have hnot : ¬ i < len := by omega
    rw [readLoopTrace_exit len 0 td mem i _ hnot]
    refine ⟨_, rfl, by simp, by simp, by simp, by simp, fun _ _ => rfl, ?_⟩
    exact toSsize_nonneg_le len hlen
  | succ fuel ih =>
    intro td mem i hi hfuel
    by_cases hlt : i < len
    · have hiW : i < WORD := by omega
      have hi1W : i + 1 < WORD := by omega
      have hstepok : ∀ s : LoopStep, s = ⟨i, (i : Int), false, i, none⟩ →
          0 ≤ s.buffer ∧ s.buffer < (len : Int)
            ∧ (s.discard = true →
                s.iBody = (if s.i = 0 then WORD - 1 else s.i - 1)
                ∧ s.next = some (s.i, s.buffer)) := by
        intro s hs
        subst hs
        refine ⟨by simp, by simp; omega, ?_⟩
        intro h
        simp at h
      have hret1 : 0 ≤ toSsize (i + 1) → toSsize (i + 1) ≤ (len : Int) := by
        intro h
        have := toSsize_nonneg_le (i + 1) hi1W h
        omega
      cases hev : td.device.readScript td.device.reads with
      | fail e =>
        rw [readLoopTrace_fail len fuel td mem i _ e hlt hev]
        refine ⟨_, rfl, by simp, by simp; omega, by simp [Device.afterRead_reads], ?_,
          fun _ _ => rfl, ?_⟩
        · intro s hs
          exact hstepok s (List.mem_singleton.mp hs)
        · simp only
          split <;> omega
      | byte b =>
        by_cases h13 : b = 13
        · subst h13
          rw [readLoopTrace_cr len fuel td mem i _ hlt hev]
          refine ⟨_, rfl, by simp, by simp; omega,
            by simp [echoWrite_reads, Device.afterRead_reads], ?_, ?_, hret1⟩
          · intro s hs
            exact hstepok s (List.mem_singleton.mp hs)
          · intro k hk
            simp only
            rw [update_outside _ len i _ hlt k hk, update_outside _ len i _ hlt k hk]
        · by_cases h10 : b = 10
          · subst h10
            cases hskip : td.skipNewline with
            | true =>
              rw [readLoopTrace_lf_skip len fuel td mem i _ hlt hev hskip,
                incSize_decSize i hiW, Int.sub_add_cancel]
              obtain ⟨r, hr, h1, h2, h3, h4, h5, h6⟩ :=
                ih { td with device := td.device.afterRead, skipNewline := false }
                  (Function.update mem (i : Int) 10) i hi
                  (by simp [hskip] at hfuel ⊢; omega)
              simp only [Bool.false_eq_true, if_false, Device.afterRead_reads] at h1 h2 h3
              refine ⟨r, hr, ?_, ?_, ?_, ?_, ?_, h6⟩
              · simp only [List.filter_cons, if_true, List.length_cons]
                simpa using h1
              · simp only [List.length_cons, if_true]
                omega
              · rw [h3]
                simp only [List.length_cons]
                omega
              · intro s hs
                rcases List.mem_cons.mp hs with hs | hs
                · subst hs
                  refine ⟨by simp, by simp; omega, fun _ => ⟨decSize_eq i hiW, rfl⟩⟩
                · exact h4 s hs
              · intro k hk
                rw [h5 k hk, update_outside _ len i _ hlt k hk]
            | false =>
              rw [readLoopTrace_lf len fuel td mem i _ hlt hev hskip]
              refine ⟨_, rfl, by simp, by simp; omega,
                by simp [echoWrite_reads, Device.afterRead_reads], ?_, ?_, hret1⟩
              · intro s hs
                exact hstepok s (List.mem_singleton.mp hs)
              · intro k hk
                simp only
                rw [update_outside _ len i _ hlt k hk]
          · rw [readLoopTrace_other len fuel td mem i _ b hlt hev h13 h10,
              incSize_of_lt i hi1W]
            have hcast : (i : Int) + 1 = ((i + 1 : Nat) : Int) := by push_cast; rfl
            rw [hcast]
            obtain ⟨r, hr, h1, h2, h3, h4, h5, h6⟩ :=
              ih { td with device := echoWrite td.echo td.device.afterRead [b],
                           skipNewline := false }
                (Function.update mem (i : Int) b) (i + 1) hlt
                (by simp only [Bool.false_eq_true, if_false]; split at hfuel <;> omega)
            simp only [Bool.false_eq_true, if_false, echoWrite_reads,
              Device.afterRead_reads] at h1 h2 h3
            refine ⟨r, hr, ?_, ?_, ?_, ?_, ?_, h6⟩
            · have : (List.filter (fun s => s.discard)
                  (readLoopTrace len fuel
                    { td with device := echoWrite td.echo td.device.afterRead [b],
                              skipNewline := false }
                    (Function.update mem (i : Int) b) (i + 1) ((i + 1 : Nat) : Int)).2).length
                  = 0 := by omega
              simp only [List.filter_cons, Bool.false_eq_true, if_false, this]
              omega
            · simp only [List.length_cons]
              split <;> omega
            · rw [h3]
              simp only [List.length_cons]
              omega
            · intro s hs
              rcases List.mem_cons.mp hs with hs | hs
              · subst hs
                refine ⟨by simp, by simp; omega, ?_⟩
                intro h
                simp at h
              · exact h4 s hs
            · intro k hk
              rw [h5 k hk, update_outside _ len i _ hlt k hk]
    · rw [readLoopTrace_exit len _ td mem i _ hlt]
      refine ⟨_, rfl, by simp, by simp, by simp, by simp, fun _ _ => rfl, ?_⟩
      exact toSsize_nonneg_le len hlen

/-- C13: for every `len` (a `size_t`), every device stream and either value
of `skipNewline`, the text-mode loop of `TerminalDevice::read` ends within
`len + 1` iterations; the discard branch is taken at most once, in it the
counter goes from `i` to `i - 1` (from 0 to the largest `size_t`) and the loop
increment brings counter and pointer back to what they were; every iteration
reads and stores at an offset in `[0, len)` and the buffer is unchanged
outside `[0, len)`; the call does one one-byte device read per iteration, at
most `len + 1` in all; a non-negative return value is at most `len`. -/
theorem TerminalDevice_read_loop_bounds (td : TerminalDevice) (mem : Int → Nat) (len : Nat)
    (hbin : td.binary = false) (hlen : len < WORD) :
    ∃ r, td.read mem len = some r
      ∧ (readLoopTrace len (len + 1) td mem 0 0).1 = some r
      ∧ ((readLoopTrace len (len + 1) td mem 0 0).2.filter (fun s => s.discard)).length ≤ 1
      ∧ (∀ s ∈ (readLoopTrace len (len + 1) td mem 0 0).2,
          0 ≤ s.buffer ∧ s.buffer < (len : Int)
          ∧ (s.discard = true →
              s.iBody = (if s.i = 0 then WORD - 1 else s.i - 1)
              ∧ s.next = some (s.i, s.buffer)))
      ∧ (readLoopTrace len (len + 1) td mem 0 0).2.length ≤ len + 1
      ∧ r.td.device.reads
          = td.device.reads + (readLoopTrace len (len + 1) td mem 0 0).2.length
      ∧ r.td.device.reads ≤ td.device.reads + (len + 1)
      ∧ (∀ k : Int, ¬ (0 ≤ k ∧ k < (len : Int)) → r.mem k = mem k)
      ∧ (0 ≤ r.ret → r.ret ≤ (len : Int)) := by
  obtain ⟨r, hr, h1, h2, h3, h4, h5, h6⟩ :=
    readLoopTrace_bounds len hlen (len + 1) td mem 0 (Nat.zero_le _) (by split <;> omega)
  have hcast : ((0 : Nat) : Int) = 0 := rfl
  rw [hcast] at hr h1 h2 h3 h4
  have hlenle : (readLoopTrace len (len + 1) td mem 0 0).2.length ≤ len + 1 := by
    split at h2 <;> omega
  refine ⟨r, ?_, hr, ?_, h4, hlenle, h3, by omega, h5, h6⟩
  · simp only [TerminalDevice.read, hbin, Bool.false_eq_true, if_false]
    rw [← readLoopTrace_fst]
    exact hr
  · split at h1 <;> omega

theorem TerminalDevice_read_loop_bounds_witness :
    (TerminalDevice.afterCarriageReturn (Device.ofInput [10, 97, 98, 99] 1)).binary = false
    ∧ 2 < WORD
    ∧ (readLoopTrace 2 (2 + 1)
          (TerminalDevice.afterCarriageReturn (Device.ofInput [10, 97, 98, 99] 1))
          (fun _ => 0) 0 0).2
        = [⟨0, 0, true, 4294967295, some (0, 0)⟩, ⟨0, 0, false, 0, some (1, 1)⟩,
           ⟨1, 1, false, 1, some (2, 2)⟩]
    ∧ ∃ r, (TerminalDevice.afterCarriageReturn (Device.ofInput [10, 97, 98, 99] 1)).read
          (fun _ => 0) 2 = some r
        ∧ r.td.device.reads
            ≤ (TerminalDevice.afterCarriageReturn
                (Device.ofInput [10, 97, 98, 99] 1)).device.reads + (2 + 1)
        ∧ (0 ≤ r.ret → r.ret ≤ ((2 : Nat) : Int)) := by
  obtain ⟨r, h1, _, _, _, _, _, h7, _, h9⟩ := TerminalDevice_read_loop_bounds
    (TerminalDevice.afterCarriageReturn (Device.ofInput [10, 97, 98, 99] 1)) (fun _ => 0) 2
    rfl (by decide)
  exact ⟨rfl, by decide, by decide, r, h1, h7, h9⟩


/-! ## Properties: one call of `TerminalDevice::read` returns at most one line -/

theorem bufferPrefix_zero (mem : Int → Nat) : bufferPrefix mem 0 = [] := rfl

theorem readLoop_line (len : Nat) (hlen : len ≤ SSIZE_MAX) :
    ∀ (fuel : Nat) (td : TerminalDevice) (mem : Int → Nat) (i : Nat),
      i ≤ len → (len - i) + (if td.skipNewline then 1 else 0) ≤ fuel →
      ∃ r, readLoop len fuel td mem i (i : Int) = some r
        ∧ r.td.device.readScript = td.device.readScript
        ∧ td.device.reads ≤ r.td.device.reads
        ∧ (∀ k e, td.device.reads ≤ k → k < r.td.device.reads →
            td.device.readScript k = DevEvent.fail e →
            k + 1 = r.td.device.reads
            ∧ r.ret = (if i + (k - td.device.reads)
                  - (if td.skipNewline = true
                      ∧ td.device.readScript td.device.reads = DevEvent.byte 10 then 1 else 0)
                  = 0 then -(e : Int)
                else ((i + (k - td.device.reads)
                  - (if td.skipNewline = true
                      ∧ td.device.readScript td.device.reads = DevEvent.byte 10 then 1 else 0)
                  : Nat) : Int)))
        ∧ (∀ k, td.device.reads ≤ k → k < r.td.device.reads →
            (td.device.readScript k = DevEvent.byte 13
              ∨ (td.device.readScript k = DevEvent.byte 10
                  ∧ ¬ (k = td.device.reads ∧ td.skipNewline = true))) →
            k + 1 = r.td.device.reads
            ∧ r.ret = ((i + (k - td.device.reads)
                  - (if td.skipNewline = true
                      ∧ td.device.readScript td.device.reads = DevEvent.byte 10 then 1 else 0)
                  + 1 : Nat) : Int)
            ∧ r.data.getLast? = some 10)
        ∧ ((∀ x ∈ bufferPrefix mem i, x ≠ 13 ∧ x ≠ 10) →
            (∀ x ∈ r.data, x ≠ 13) ∧ (∀ x ∈ r.data.dropLast, x ≠ 10)) := by
  have hlen2 : len ≤ 2147483647 := hlen
  intro fuel
  induction fuel with
  | zero =>
    intro td mem i hi hfuel
    have hnot : ¬ i < len := by omega
    have hil : i = len := by omega
    refine ⟨_, readLoop_exit len 0 td mem i _ hnot, rfl, le_refl _, ?_, ?_, ?_⟩
    · intro k e h1 h2
      have h2b : k < td.device.reads := h2
      omega
    · intro k h1 h2
      have h2b : k < td.device.reads := h2
      omega
    · intro hclean
      have hd : (ReadResult.mk (toSsize len) td mem).data = bufferPrefix mem i := by
        simp [ReadResult.data, toSsize_of_le len hlen, hil]
      rw [hd]
      exact ⟨fun x hx => (hclean x hx).1,
        fun x hx => (hclean x (List.mem_of_mem_dropLast hx)).2⟩
  | succ fuel ih =>
    intro td mem i hi hfuel
    by_cases hlt : i < len
    · have hi1 : i + 1 ≤ SSIZE_MAX := by show i + 1 ≤ 2147483647; omega
      have hterm : ∀ (m : Int → Nat), (∀ x ∈ bufferPrefix mem i, x ≠ 13 ∧ x ≠ 10) →
          (∀ x ∈ bufferPrefix mem i ++ [10], x ≠ 13)
          ∧ (∀ x ∈ (bufferPrefix mem i ++ [10]).dropLast, x ≠ 10) := by
        intro _ hclean
        refine ⟨?_, ?_⟩
        · intro x hx
          rcases List.mem_append.mp hx with hx | hx
          · exact (hclean x hx).1
          · simp at hx
            omega
        · intro x hx
          rw [List.dropLast_concat] at hx
          exact (hclean x hx).2
      cases hev : td.device.readScript td.device.reads with
      | fail e0 =>
        refine ⟨_, readLoop_fail len fuel td mem i _ e0 hlt hev, rfl,
          by simp [Device.afterRead_reads], ?_, ?_, ?_⟩
        · intro k e h1 h2 hk
          simp only [Device.afterRead_reads] at h2
          have hkeq : k = td.device.reads := by omega
          subst hkeq
          rw [hev] at hk
          have he : e0 = e := by injection hk
          subst he
          refine ⟨by simp [Device.afterRead_reads], ?_⟩
          simp only [hev, Nat.sub_self, Nat.add_zero, reduceCtorEq, and_false, if_false,
            Nat.sub_zero]
          by_cases h0 : i = 0
          · simp [h0]
          · have : ¬ ((i : Int) = 0) := by omega
            simp [h0, this]
        · intro k h1 h2 hk
          simp only [Device.afterRead_reads] at h2
          have hkeq : k = td.device.reads := by omega
          subst hkeq
          rw [hev] at hk
          simp at hk
        · intro hclean
          have hd : (ReadResult.mk (if (i : Int) = 0 then -(e0 : Int) else (i : Int))
              { td with device := td.device.afterRead } mem).data
              = bufferPrefix mem i ∨
              (ReadResult.mk (if (i : Int) = 0 then -(e0 : Int) else (i : Int))
              { td with device := td.device.afterRead } mem).data = [] := by
            by_cases h0 : i = 0
            · right
              subst h0
              simp [ReadResult.data, bufferPrefix]
            · left
              have : ¬ ((i : Int) = 0) := by omega
              simp [ReadResult.data, this]
          rcases hd with hd | hd
          · rw [hd]
            exact ⟨fun x hx => (hclean x hx).1,
              fun x hx => (hclean x (List.mem_of_mem_dropLast hx)).2⟩
          · rw [hd]
            simp
      | byte b =>
        by_cases h13 : b = 13
        · subst h13
          have hd : (ReadResult.mk (toSsize (i + 1))
              { td with device := echoWrite td.echo td.device.afterRead [13, 10],
                        skipNewline := true }
              (Function.update (Function.update mem (i : Int) 13) (i : Int) 10)).data
              = bufferPrefix mem i ++ [10] := by
            simp only [ReadResult.data]
            rw [toSsize_of_le _ hi1, Int.toNat_ofNat, Function.update_idem,
              bufferPrefix_update_succ]
          refine ⟨_, readLoop_cr len fuel td mem i _ hlt hev, ?_, ?_, ?_, ?_, ?_⟩
          · simp [echoWrite_readScript, Device.afterRead_readScript]
          · simp [echoWrite_reads, Device.afterRead_reads]
          · intro k e h1 h2 hk
            simp only [echoWrite_reads, Device.afterRead_reads] at h2
            have hkeq : k = td.device.reads := by omega
            subst hkeq
            rw [hev] at hk
            simp at hk
          · intro k h1 h2 _
            simp only [echoWrite_reads, Device.afterRead_reads] at h2
            have hkeq : k = td.device.reads := by omega
            subst hkeq
            refine ⟨by simp [echoWrite_reads, Device.afterRead_reads], ?_, ?_⟩
            · simp only [hev, DevEvent.byte.injEq, and_false, if_false, Nat.sub_self,
                Nat.add_zero, Nat.sub_zero]
              rw [toSsize_of_le _ hi1]
              simp
            · rw [hd]
              simp
          · intro hclean
            rw [hd]
            exact hterm mem hclean
        · by_cases h10 : b = 10
          · subst h10
            cases hskip : td.skipNewline with
            | true =>
              have hiW : i < WORD := by show i < 4294967296; omega
              have hstep := readLoop_lf_skip len fuel td mem i (i : Int) hlt hev hskip
              rw [incSize_decSize i hiW, Int.sub_add_cancel] at hstep
              obtain ⟨r, hr, g1, g2, g3, g4, g5⟩ :=
                ih { td with device := td.device.afterRead, skipNewline := false }
                  (Function.update mem (i : Int) 10) i hi
                  (by simp [hskip] at hfuel ⊢; omega)
              simp only [Device.afterRead_reads, Device.afterRead_readScript,
                Bool.false_eq_true, false_and, and_false, if_false, Nat.sub_zero,
                not_false_eq_true, and_true] at g1 g2 g3 g4
              refine ⟨r, by rw [hstep]; exact hr, g1, by omega, ?_, ?_, ?_⟩
              · intro k e h1 h2 hk
                have hkne : k ≠ td.device.reads := by
                  intro hkeq
                  rw [hkeq, hev] at hk
                  simp at hk
                obtain ⟨a1, a2⟩ := g3 k e (by omega) h2 hk
                refine ⟨a1, ?_⟩
                rw [a2]
                have harith : i + (k - (td.device.reads + 1))
                    = i + (k - td.device.reads) - 1 := by omega
                simp only [hev, and_self, if_true, harith]
              · intro k h1 h2 hk
                have hkne : k ≠ td.device.reads := by
                  intro hkeq
                  subst hkeq
                  rcases hk with hk | hk
                  · rw [hev] at hk
                    simp at hk
                  · exact hk.2 ⟨rfl, rfl⟩
                have hk2 : td.device.readScript k = DevEvent.byte 13
                    ∨ td.device.readScript k = DevEvent.byte 10 := by
                  rcases hk with hk | hk
                  · exact Or.inl hk
                  · exact Or.inr hk.1
                obtain ⟨a1, a2, a3⟩ := g4 k (by omega) h2 hk2
                refine ⟨a1, ?_, a3⟩
                rw [a2]
                have harith : i + (k - (td.device.reads + 1)) + 1
                    = i + (k - td.device.reads) - 1 + 1 := by omega
                simp only [hev, and_self, if_true, harith]
              · intro hclean
                apply g5
                rw [bufferPrefix_update_ge _ _ _ _ (le_refl _)]
                exact hclean
            | false =>
              have hd : (ReadResult.mk (toSsize (i + 1))
                  { td with device := echoWrite td.echo td.device.afterRead [13, 10] }
                  (Function.update mem (i : Int) 10)).data
                  = bufferPrefix mem i ++ [10] := by
                simp only [ReadResult.data]
                rw [toSsize_of_le _ hi1, Int.toNat_ofNat, bufferPrefix_update_succ]
              refine ⟨_, readLoop_lf len fuel td mem i _ hlt hev hskip, ?_, ?_, ?_, ?_, ?_⟩
              · simp [echoWrite_readScript, Device.afterRead_readScript]
              · simp [echoWrite_reads, Device.afterRead_reads]
              · intro k e h1 h2 hk
                simp only [echoWrite_reads, Device.afterRead_reads] at h2
                have hkeq : k = td.device.reads := by omega
                subst hkeq
                rw [hev] at hk
                simp at hk
              · intro k h1 h2 _
                simp only [echoWrite_reads, Device.afterRead_reads] at h2
                have hkeq : k = td.device.reads := by omega
                subst hkeq
                refine ⟨by simp [echoWrite_reads, Device.afterRead_reads], ?_, ?_⟩
                · simp only [Bool.false_eq_true, false_and, if_false, Nat.sub_self,
                    Nat.add_zero, Nat.sub_zero]
                  rw [toSsize_of_le _ hi1]
                · rw [hd]
                  simp
              · intro hclean
                rw [hd]
                exact hterm mem hclean
          · have hiW : i + 1 < WORD := by show i + 1 < 4294967296; omega
            have hstep := readLoop_other len fuel td mem i (i : Int) b hlt hev h13 h10
            rw [incSize_of_lt i hiW] at hstep
            obtain ⟨r, hr, g1, g2, g3, g4, g5⟩ :=
              ih { td with device := echoWrite td.echo td.device.afterRead [b],
                           skipNewline := false }
                (Function.update mem (i : Int) b) (i + 1) hlt
                (by simp only [Bool.false_eq_true, if_false]; split at hfuel <;> omega)
            have hcast : ((i + 1 : Nat) : Int) = (i : Int) + 1 := by push_cast; rfl
            rw [hcast] at hr
            simp only [echoWrite_reads, echoWrite_readScript, Device.afterRead_reads,
              Device.afterRead_readScript, Bool.false_eq_true, false_and, and_false, if_false,
              Nat.sub_zero, not_false_eq_true, and_true] at g1 g2 g3 g4
            have hb10 : ¬ (DevEvent.byte b = DevEvent.byte 10) := by
              intro h
              injection h with h
              exact h10 h
            have hb13 : ¬ (DevEvent.byte b = DevEvent.byte 13) := by
              intro h
              injection h with h
              exact h13 h
            refine ⟨r, by rw [hstep]; exact hr, g1, by omega, ?_, ?_, ?_⟩
            · intro k e h1 h2 hk
              have hkne : k ≠ td.device.reads := by
                intro hkeq
                rw [hkeq, hev] at hk
                simp at hk
              obtain ⟨a1, a2⟩ := g3 k e (by omega) h2 hk
              refine ⟨a1, ?_⟩
              rw [a2]
              have harith : i + 1 + (k - (td.device.reads + 1))
                  = i + (k - td.device.reads) := by omega
              simp only [hev, hb10, and_false, if_false, Nat.sub_zero, harith]
            · intro k h1 h2 hk
              have hkne : k ≠ td.device.reads := by
                intro hkeq
                subst hkeq
                rw [hev] at hk
                rcases hk with hk | hk
                · exact hb13 hk
                · exact hb10 hk.1
              have hk2 : td.device.readScript k = DevEvent.byte 13
                  ∨ td.device.readScript k = DevEvent.byte 10 := by
                rcases hk with hk | hk
                · exact Or.inl hk
                · exact Or.inr hk.1
              obtain ⟨a1, a2, a3⟩ := g4 k (by omega) h2 hk2
              refine ⟨a1, ?_, a3⟩
              rw [a2]
              have harith : i + 1 + (k - (td.device.reads + 1)) + 1
                  = i + (k - td.device.reads) + 1 := by omega
              simp only [hev, hb10, and_false, if_false, Nat.sub_zero, harith]
            · intro hclean
              apply g5
              rw [bufferPrefix_update_succ]
              intro x hx
              rcases List.mem_append.mp hx with hx | hx
              · exact hclean x hx
              · simp at hx
                subst hx
                exact ⟨h13, h10⟩
    · have hil : i = len := by omega
      refine ⟨_, readLoop_exit len _ td mem i _ hlt, rfl, le_refl _, ?_, ?_, ?_⟩
      · intro k e h1 h2
        have h2b : k < td.device.reads := h2
        omega
      · intro k h1 h2
        have h2b : k < td.device.reads := h2
        omega
      · intro hclean
        have hd : (ReadResult.mk (toSsize len) td mem).data = bufferPrefix mem i := by
          simp [ReadResult.data, toSsize_of_le len hlen, hil]
        rw [hd]
        exact ⟨fun x hx => (hclean x hx).1,
          fun x hx => (hclean x (List.mem_of_mem_dropLast hx)).2⟩

theorem readLoop_plain_then_lf (len : Nat) (hlen : len < WORD) (b : Nat) (h13 : b ≠ 13)
    (h10 : b ≠ 10) :
    ∀ (m fuel : Nat) (td : TerminalDevice) (mem : Int → Nat) (i : Nat) (buffer : Int),
      i + m < len → m + 1 ≤ fuel → td.skipNewline = false →
      (∀ k, td.device.reads ≤ k → k < td.device.reads + m →
        td.device.readScript k = DevEvent.byte b) →
      td.device.readScript (td.device.reads + m) = DevEvent.byte 10 →
      ∃ r, readLoop len fuel td mem i buffer = some r
        ∧ r.ret = toSsize (i + m + 1)
        ∧ r.td.device.reads = td.device.reads + m + 1 := by
  intro m
  induction m with
  | zero =>
    intro fuel td mem i buffer hi hfuel hskip _ hlf
    obtain ⟨f, rfl⟩ : ∃ f, fuel = f + 1 := ⟨fuel - 1, by omega⟩
    refine ⟨_, readLoop_lf len f td mem i buffer (by omega) hlf hskip, rfl, ?_⟩
    simp [echoWrite_reads, Device.afterRead_reads]
  | succ m ih =>
    intro fuel td mem i buffer hi hfuel hskip hplain hlf
    obtain ⟨f, rfl⟩ : ∃ f, fuel = f + 1 := ⟨fuel - 1, by omega⟩
    have hev := hplain td.device.reads (le_refl _) (by omega)
    have hstep := readLoop_other len f td mem i buffer b (by omega) hev h13 h10
    rw [incSize_of_lt i (by omega)] at hstep
    obtain ⟨r, hr, h1, h2⟩ :=
      ih f { td with device := echoWrite td.echo td.device.afterRead [b],
                     skipNewline := false }
        (Function.update mem buffer b) (i + 1) (buffer + 1) (by omega) (by omega) rfl
        (by
          intro k hk1 hk2
          simp only [echoWrite_reads, echoWrite_readScript, Device.afterRead_reads,
            Device.afterRead_readScript] at hk1 hk2 ⊢
          exact hplain k (by omega) (by omega))
        (by
          simp only [echoWrite_reads, echoWrite_readScript, Device.afterRead_reads,
            Device.afterRead_readScript]
          have : td.device.reads + 1 + m = td.device.reads + (m + 1) := by omega
          rw [this]
          exact hlf)
    refine ⟨r, by rw [hstep]; exact hr, ?_, ?_⟩
    · rw [h1]
      congr 1
      omega
    · rw [h2]
      simp only [echoWrite_reads, Device.afterRead_reads]
      omega

theorem TerminalDevice.read_plain_then_lf (td : TerminalDevice) (mem : Int → Nat)
    (len m b : Nat) (hbin : td.binary = false) (hskip : td.skipNewline = false)
    (hlen : len < WORD) (hm : m < len) (h13 : b ≠ 13) (h10 : b ≠ 10)
    (hplain : ∀ k, td.device.reads ≤ k → k < td.device.reads + m →
      td.device.readScript k = DevEvent.byte b)
    (hlf : td.device.readScript (td.device.reads + m) = DevEvent.byte 10) :
    ∃ r, td.read mem len = some r
      ∧ r.ret = toSsize (m + 1)
      ∧ r.td.device.reads = td.device.reads + m + 1 := by
  obtain ⟨r, hr, h1, h2⟩ := readLoop_plain_then_lf len hlen b h13 h10 m (len + 1) td mem 0 0
    (by omega) (by omega) hskip hplain hlf
  refine ⟨r, ?_, ?_, h2⟩
  · simp only [TerminalDevice.read, hbin, Bool.false_eq_true, if_false]
    exact hr
  · rw [h1]
    congr 1
    omega

/-- C14 (amended): in text mode, for every device stream, every `len` at most
`SSIZE_MAX` and every initial state, `read` returns, and the bytes it hands
back (the consumed bytes with line endings translated) never contain a
carriage return and contain a line feed only as the last byte; a carriage
return, or a line feed that is not discarded (it is not the first byte of a
call with `skipNewline` set), is the last byte the call reads, and the call
returns the number of bytes stored, terminator included; a failing device
read is the last read of the call, which returns the number of bytes stored
when it is at least 1 and the result of the device otherwise.  The number of
bytes stored before the read number `k` is the number of reads before it,
less one when the first byte was discarded. -/
theorem TerminalDevice_read_one_line (td : TerminalDevice) (mem : Int → Nat) (len : Nat)
    (hbin : td.binary = false) (hlen : len ≤ SSIZE_MAX) :
    ∃ r, td.read mem len = some r
      ∧ r.data = normSkip td.skipNewline
          (consumedBytes td.device.readScript td.device.reads r.td.device.reads)
      ∧ (∀ x ∈ r.data, x ≠ 13)
      ∧ (∀ x ∈ r.data.dropLast, x ≠ 10)
      ∧ (∀ k, td.device.reads ≤ k → k < r.td.device.reads →
          (td.device.readScript k = DevEvent.byte 13
            ∨ (td.device.readScript k = DevEvent.byte 10
                ∧ ¬ (k = td.device.reads ∧ td.skipNewline = true))) →
          k + 1 = r.td.device.reads
          ∧ r.ret = (((k - td.device.reads)
                - (if td.skipNewline = true
                    ∧ td.device.readScript td.device.reads = DevEvent.byte 10 then 1 else 0)
                + 1 : Nat) : Int)
          ∧ r.data.getLast? = some 10)
      ∧ (∀ k e, td.device.reads ≤ k → k < r.td.device.reads →
          td.device.readScript k = DevEvent.fail e →
          k + 1 = r.td.device.reads
          ∧ (1 ≤ (k - td.device.reads)
                - (if td.skipNewline = true
                    ∧ td.device.readScript td.device.reads = DevEvent.byte 10 then 1 else 0) →
              r.ret = (((k - td.device.reads)
                - (if td.skipNewline = true
                    ∧ td.device.readScript td.device.reads = DevEvent.byte 10 then 1 else 0)
                : Nat) : Int))
          ∧ ((k - td.device.reads)
                - (if td.skipNewline = true
                    ∧ td.device.readScript td.device.reads = DevEvent.byte 10 then 1 else 0)
                = 0 → r.ret = -(e : Int))) := by
  obtain ⟨r, hr, _, _, g3, g4, g5⟩ :=
    readLoop_line len hlen (len + 1) td mem 0 (Nat.zero_le _) (by split <;> omega)
  have hcast : ((0 : Nat) : Int) = 0 := rfl
  rw [hcast] at hr
  have hread : td.read mem len = some r := by
    simp only [TerminalDevice.read, hbin, Bool.false_eq_true, if_false]
    exact hr
  obtain ⟨r2, hr2, _, _, _, hdata, _⟩ := TerminalDevice.read_text td mem len hbin hlen
  have hrr : r2 = r := Option.some.inj (hr2.symm.trans hread)
  subst hrr
  simp only [Nat.zero_add] at g3 g4
  have hclean := g5 (by intro x hx; simp [bufferPrefix] at hx)
  refine ⟨r2, hread, hdata, hclean.1, hclean.2, g4, ?_⟩
  intro k e h1 h2 hk
  obtain ⟨a1, a2⟩ := g3 k e h1 h2 hk
  refine ⟨a1, ?_, ?_⟩
  · intro hpos
    rw [a2, if_neg (by omega)]
  · intro hzero
    rw [a2, if_pos hzero]

theorem TerminalDevice_read_one_line_witness :
    (TerminalDevice.afterCarriageReturn (Device.ofInput [10, 97, 13, 98] 1)).binary = false
    ∧ 5 ≤ SSIZE_MAX
    ∧ (∃ r, (TerminalDevice.afterCarriageReturn (Device.ofInput [10, 97, 13, 98] 1)).read
          (fun _ => 0) 5 = some r
        ∧ (∀ x ∈ r.data, x ≠ 13) ∧ (∀ x ∈ r.data.dropLast, x ≠ 10))
    ∧ ((TerminalDevice.afterCarriageReturn (Device.ofInput [10, 97, 13, 98] 1)).read
          (fun _ => 0) 5).map (fun r => (r.ret, r.data, r.td.device.reads))
        = some (2, [97, 10], 3)
    ∧ ((TerminalDevice.new (Device.ofInput [97, 98] 1)).read
          (fun _ => 0) 5).map (fun r => (r.ret, r.data, r.td.device.reads))
        = some (2, [97, 98], 3)
    ∧ ((TerminalDevice.new (Device.ofInput [] 1)).read
          (fun _ => 0) 5).map (fun r => (r.ret, r.data, r.td.device.reads))
        = some (0, [], 1) := by
  obtain ⟨r, h1, _, h3, h4, _, _⟩ := TerminalDevice_read_one_line
    (TerminalDevice.afterCarriageReturn (Device.ofInput [10, 97, 13, 98] 1)) (fun _ => 0) 5
    rfl (by decide)
  exact ⟨rfl, by decide, ⟨r, h1, h3, h4⟩, by decide, by decide, by decide⟩

/-- C14, as stated, fails for a count above `SSIZE_MAX`: on a device
delivering 2147483647 letters `a` and then a line feed, a `read` of
2147483648 bytes receives the line feed as its last byte, 2147483648 bytes
are stored, and the value returned is `-2147483648`, not the count. -/
theorem TerminalDevice_read_count_not_representable :
    ∃ r, (TerminalDevice.new (Device.longLine 2147483647 1)).read (fun _ => 0) 2147483648
          = some r
      ∧ (TerminalDevice.new (Device.longLine 2147483647 1)).device.readScript 2147483647
          = DevEvent.byte 10
      ∧ r.td.device.reads = 2147483648
      ∧ r.ret = -2147483648
      ∧ r.ret ≠ ((2147483648 : Nat) : Int) := by
  have hplain : ∀ k, (TerminalDevice.new (Device.longLine 2147483647 1)).device.reads ≤ k →
      k < (TerminalDevice.new (Device.longLine 2147483647 1)).device.reads + 2147483647 →
      (TerminalDevice.new (Device.longLine 2147483647 1)).device.readScript k
        = DevEvent.byte 97 := by
    intro k _ hk
    have hk2 : k < 2147483647 := by
      have h0 : (TerminalDevice.new (Device.longLine 2147483647 1)).device.reads = 0 := rfl
      rw [h0] at hk
      omega
    show (if k < 2147483647 then DevEvent.byte 97 else DevEvent.byte 10) = DevEvent.byte 97
    rw [if_pos hk2]
  obtain ⟨r, hread, h1, h2⟩ := TerminalDevice.read_plain_then_lf
    (TerminalDevice.new (Device.longLine 2147483647 1)) (fun _ => 0) 2147483648 2147483647 97
    rfl rfl (by decide) (by decide) (by decide) (by decide) hplain rfl
  have hs : toSsize (2147483647 + 1) = -2147483648 := by decide
  have hret : r.ret = -2147483648 := h1.trans hs
  refine ⟨r, hread, rfl, ?_, hret, ?_⟩
  · rw [h2]
    rfl
  · rw [hret]
    decide

end Miosix
